import Mathlib

/-!
# Verification of the stella container format core

A shallow embedding, in Lean 4, of the core of the `stella` repository:

* `stella/vox_rle.py` — the RLEVOX binary voxel codec (writer, reader,
  per-row run-length encoder, coordinate helpers);
* `stella/package.py` — the `.stella` container packer, checksum
  verifier and structural validator;
* `stella/manifest.py` — the manifest schema parser (`Manifest.from_dict`).

Modelling conventions:

* Byte streams are `List Nat` with each element a byte value; multi-byte
  fields are little-endian, exactly as `struct.pack("<H"/"<I"/"<f")` lays
  them out.  `struct.pack` raises for out-of-range integers, so theorems
  about the writer carry `< 2^32` bounds instead of silently wrapping.
* The `float32` header fields (`voxel_size`, the three origin components)
  are modelled by their 32-bit patterns: `struct.pack("<f", x)` stores the
  float32 rounding of `x` as four bytes, and `struct.unpack("<f", ...)`
  recovers exactly that pattern.  "Equal to float32 precision" is therefore
  exact recovery of the stored 32-bit word.
* A voxel grid is a function `Nat → Nat → Nat → Bool` (indexed x, y, z)
  together with its three dimensions.
* The coordinate helpers, which numpy evaluates in floating point, are
  modelled componentwise over `ℚ` (exact real-number semantics).
* Python strings used as archive paths are modelled as their code-point
  sequences (`List Nat`); Python compares and sorts `str` values by code
  point, so lexicographic order on these lists is exactly Python's order.
-/

namespace Stella

/-! ## Voxel codec: constants (vox_rle.py lines 33-37) -/

/-- `MAGIC = b"STVX"`. -/
def MAGIC : List Nat := [83, 84, 86, 88]

/-- `VERSION = 1`. -/
def VERSION : Nat := 1

/-- `HEADER_SIZE = 64`. -/
def HEADER_SIZE : Nat := 64

/-- `ENCODING = b"RLE1"`. -/
def ENCODING : List Nat := [82, 76, 69, 49]

/-- `struct.pack("<H", n)` for `n < 2^16`. -/
def u16le (n : Nat) : List Nat := [n % 256, n / 256]

/-- `struct.pack("<I", n)` for `n < 2^32`. -/
def u32le (n : Nat) : List Nat :=
  [n % 256, n / 256 % 256, n / 65536 % 256, n / 16777216 % 256]

/-! ## `_encode_rle_row` (vox_rle.py lines 194-221)

The Python loop keeps a current value (an `int`, `0` or `1`) and a running
length; `encRleAux cur len l` is the loop with state `(cur, len)` and the
not-yet-visited suffix `l`. -/

def encRleAux (cur : Nat) (len : Nat) : List Bool → List (Nat × Nat)
  | [] => [(len, cur)]
  | b :: rest =>
    let v : Nat := if b then 1 else 0
    if v = cur then encRleAux cur (len + 1) rest
    else (len, cur) :: encRleAux v 1 rest

/-- `_encode_rle_row(row)`: the list of `(run_length, value)` pairs, with
`value ∈ {0,1}` obtained as `int(bool)`. -/
def _encode_rle_row : List Bool → List (Nat × Nat)
  | [] => []
  | b :: rest => encRleAux (if b then 1 else 0) 1 rest

/-! ## Run splitting in `write_rlevox` (vox_rle.py lines 103-111)

The writer splits each run into chunks of at most 65535 with
`while remaining > 0: chunk = min(remaining, 65535); ...`.  The loop runs
at most `remaining` times, so `remaining` itself is a sufficient fuel; the
fuelled function below computes exactly the Python loop's output. -/

def splitRunF (v : Nat) : Nat → Nat → List (Nat × Nat)
  | 0, _ => []
  | _ + 1, 0 => []
  | fuel + 1, r + 1 =>
    let chunk := min (r + 1) 65535
    (chunk, v) :: splitRunF v fuel (r + 1 - chunk)

/-- The records the writer emits for one `(run_length, value)` pair. -/
def splitRun (runLength v : Nat) : List (Nat × Nat) := splitRunF v runLength runLength

/-- One written run record: `<H` run length, `<B` value, `<B` zero flags. -/
def recordBytes (r : Nat × Nat) : List Nat := [r.1 % 256, r.1 / 256, r.2, 0]

/-- All run records the writer emits for one row. -/
def rowRecords (row : List Bool) : List (Nat × Nat) :=
  (_encode_rle_row row).flatMap fun r => splitRun r.1 r.2

/-- The bytes the writer emits for one row. -/
def rowBytes (row : List Bool) : List Nat := (rowRecords row).flatMap recordBytes

/-- The rows of the grid in writing order: `z` outer, `y` inner, the row
running along `x` (vox_rle.py lines 99-102, `grid[:, y, z]`). -/
def gridRows (g : Nat → Nat → Nat → Bool) (dimX dimY dimZ : Nat) : List (List Bool) :=
  (List.range dimZ).flatMap fun z =>
    (List.range dimY).map fun y =>
      (List.range dimX).map fun x => g x y z

/-- The 44 fixed header bytes (vox_rle.py lines 74-89). -/
def writeHeader (dimX dimY dimZ vsBits oxBits oyBits ozBits : Nat) : List Nat :=
  MAGIC ++ u16le VERSION ++ u16le HEADER_SIZE ++
    u32le dimX ++ u32le dimY ++ u32le dimZ ++
    u32le vsBits ++ u32le oxBits ++ u32le oyBits ++ u32le ozBits ++
    ENCODING ++ u32le 0

/-- `write_rlevox`: header padded with zeros to `HEADER_SIZE`, then the RLE
payload (vox_rle.py lines 72-111).  The float32 fields are passed as their
32-bit patterns. -/
def write_rlevox (g : Nat → Nat → Nat → Bool) (dimX dimY dimZ : Nat)
    (vsBits oxBits oyBits ozBits : Nat) : List Nat :=
  let hdr := writeHeader dimX dimY dimZ vsBits oxBits oyBits ozBits
  (hdr ++ List.replicate (HEADER_SIZE - hdr.length) 0) ++
    (gridRows g dimX dimY dimZ).flatMap rowBytes

/-! ## `read_rlevox` (vox_rle.py lines 114-191) -/

/-- The decoded file: dimensions, the float32 bit patterns of `voxel_size`
and the origin, and the rows in reading order (`z` outer, `y` inner). -/
structure RlevoxFile where
  dimX : Nat
  dimY : Nat
  dimZ : Nat
  voxelSizeBits : Nat
  originXBits : Nat
  originYBits : Nat
  originZBits : Nat
  rows : List (List Bool)
deriving DecidableEq

/-- The row-reading loop (vox_rle.py lines 170-186): `remaining` is
`dim_x - x`; each iteration reads a 4-byte record (EOF error if short),
rejects `run_length == 0`, and advances by `min run_length remaining`
(the source clamps with `end_x = min(x + run_length, dim_x)`).  A cell is
solid exactly when the record's value byte equals 1. -/
def decodeRowAux (remaining : Nat) (bytes : List Nat) :
    Except String (List Bool × List Nat) :=
  if remaining = 0 then .ok ([], bytes)
  else
    match bytes with
    | b0 :: b1 :: b2 :: _ :: rest =>
      let runLength := b0 + 256 * b1
      if runLength = 0 then .error "Invalid run_length=0"
      else
        let t := min runLength remaining
        match decodeRowAux (remaining - t) rest with
        | .error e => .error e
        | .ok (tail, rest2) => .ok (List.replicate t (b2 == 1) ++ tail, rest2)
    | _ => .error "Unexpected EOF"

/-- The nested `for z ... for y ...` loops, reading `n` rows in order. -/
def decodeRowsAux : Nat → Nat → List Nat → Except String (List (List Bool) × List Nat)
  | 0, _, bytes => .ok ([], bytes)
  | n + 1, dimX, bytes =>
    match decodeRowAux dimX bytes with
    | .error e => .error e
    | .ok (row, rest) =>
      match decodeRowsAux n dimX rest with
      | .error e => .error e
      | .ok (rows, rest2) => .ok (row :: rows, rest2)

/-- `read_rlevox`: sequential header reads with the source's check order
(magic, version, header size, dims, voxel size, origin, encoding,
reserved), then `f.seek(header_size)` and the row loops.  A short read
inside `struct.unpack` raises `struct.error` in Python; those exits are
the "struct.error" branches. -/
def read_rlevox (bytes : List Nat) : Except String RlevoxFile :=
  match bytes with
  | m0 :: m1 :: m2 :: m3 :: rest1 =>
    if [m0, m1, m2, m3] ≠ MAGIC then .error "Invalid magic"
    else
      match rest1 with
      | v0 :: v1 :: rest2 =>
        if v0 + 256 * v1 ≠ VERSION then .error "Unsupported version"
        else
          match rest2 with
          | h0 :: h1 :: rest3 =>
            let headerSize := h0 + 256 * h1
            match rest3 with
            | x0 :: x1 :: x2 :: x3 :: y0 :: y1 :: y2 :: y3 ::
              z0 :: z1 :: z2 :: z3 :: s0 :: s1 :: s2 :: s3 ::
              a0 :: a1 :: a2 :: a3 :: b0 :: b1 :: b2 :: b3 ::
              c0 :: c1 :: c2 :: c3 :: rest4 =>
              let dimX := x0 + 256 * x1 + 65536 * x2 + 16777216 * x3
              let dimY := y0 + 256 * y1 + 65536 * y2 + 16777216 * y3
              let dimZ := z0 + 256 * z1 + 65536 * z2 + 16777216 * z3
              let vs := s0 + 256 * s1 + 65536 * s2 + 16777216 * s3
              let ox := a0 + 256 * a1 + 65536 * a2 + 16777216 * a3
              let oy := b0 + 256 * b1 + 65536 * b2 + 16777216 * b3
              let oz := c0 + 256 * c1 + 65536 * c2 + 16777216 * c3
              match rest4 with
              | e0 :: e1 :: e2 :: e3 :: rest5 =>
                if [e0, e1, e2, e3] ≠ ENCODING then .error "Unsupported encoding"
                else
                  match rest5 with
                  | _ :: _ :: _ :: _ :: _ =>
                    match decodeRowsAux (dimZ * dimY) dimX (bytes.drop headerSize) with
                    | .error e => .error e
                    | .ok (rows, _) =>
                      .ok ⟨dimX, dimY, dimZ, vs, ox, oy, oz, rows⟩
                  | _ => .error "struct.error"
              | _ => .error "Unsupported encoding"
            | _ => .error "struct.error"
          | _ => .error "struct.error"
      | _ => .error "struct.error"
  | _ => .error "Invalid magic"

/-! ## Coordinate helpers (vox_rle.py lines 224-261)

`grid_to_world` and `world_to_grid` operate componentwise on numpy arrays;
they are modelled per component, over `ℚ` (exact arithmetic in place of
floating point). -/

/-- `grid_to_world`: `origin + (index + 0.5) * voxel_size`. -/
def grid_to_world (index : ℤ) (voxel_size : ℚ) (origin : ℚ) : ℚ :=
  origin + ((index : ℚ) + 1/2) * voxel_size

/-- `world_to_grid`: `floor((position - origin) / voxel_size)`. -/
def world_to_grid (position : ℚ) (voxel_size : ℚ) (origin : ℚ) : ℤ :=
  ⌊(position - origin) / voxel_size⌋

end Stella

namespace Stella

/-! ## Record-level helpers for the round-trip proofs -/

def flattenRecs (rs : List (Nat × Nat)) : List Bool :=
  rs.flatMap fun r => List.replicate r.1 (r.2 == 1)

def sumLens (rs : List (Nat × Nat)) : Nat := (rs.map Prod.fst).sum

def recsBytes (rs : List (Nat × Nat)) : List Nat := rs.flatMap recordBytes

theorem flattenRecs_nil : flattenRecs [] = [] := rfl

theorem flattenRecs_cons (r : Nat × Nat) (rs : List (Nat × Nat)) :
    flattenRecs (r :: rs) = List.replicate r.1 (r.2 == 1) ++ flattenRecs rs := by
  simp [flattenRecs]

theorem flattenRecs_append (a b : List (Nat × Nat)) :
    flattenRecs (a ++ b) = flattenRecs a ++ flattenRecs b := by
  simp [flattenRecs]

theorem length_flattenRecs (rs : List (Nat × Nat)) :
    (flattenRecs rs).length = sumLens rs := by
  induction rs with
  | nil => rfl
  | cons r rs ih => simp [flattenRecs_cons, sumLens] at ih ⊢; omega

theorem decodeRowAux_zero (bytes : List Nat) : decodeRowAux 0 bytes = .ok ([], bytes) := by
  unfold decodeRowAux
  simp

theorem decode_recsBytes (rs : List (Nat × Nat)) (rest : List Nat)
    (h : ∀ r ∈ rs, 1 ≤ r.1) :
    decodeRowAux (sumLens rs) (recsBytes rs ++ rest) = .ok (flattenRecs rs, rest) := by
  induction rs with
  | nil => simpa [recsBytes, flattenRecs, sumLens] using decodeRowAux_zero rest
  | cons r rs ih =>
    obtain ⟨l, v⟩ := r
    have hl : 1 ≤ l := h (l, v) (by simp)
    have hrs : ∀ x ∈ rs, 1 ≤ x.1 := fun x hx => h x (by simp [hx])
    have hb : recsBytes ((l, v) :: rs) ++ rest =
        l % 256 :: l / 256 :: v :: 0 :: (recsBytes rs ++ rest) := by
      simp [recsBytes, recordBytes]
    have hsum : sumLens ((l, v) :: rs) = l + sumLens rs := by simp [sumLens]
    rw [hb, hsum, decodeRowAux]
    have h1 : l % 256 + 256 * (l / 256) = l := Nat.mod_add_div l 256
    have h2 : ¬ (l + sumLens rs = 0) := by omega
    rw [if_neg h2]
    simp only [h1]
    rw [if_neg (by omega : ¬ l = 0)]
    have h3 : min l (l + sumLens rs) = l := by omega
    simp only [h3, Nat.add_sub_cancel_left]
    rw [ih hrs]
    simp [flattenRecs_cons]

end Stella

namespace Stella

theorem bool2nat_beq (b : Bool) : (((if b then (1 : Nat) else 0)) == 1) = b := by
  cases b <;> rfl

theorem bool2nat_inj (a b : Bool) :
    ((if a then (1 : Nat) else 0) = if b then (1 : Nat) else 0) ↔ a = b := by
  cases a <;> cases b <;> simp

theorem flattenRecs_encRleAux (l : List Bool) :
    ∀ (b : Bool) (len : Nat),
      flattenRecs (encRleAux (if b then 1 else 0) len l) = List.replicate len b ++ l := by
  induction l with
  | nil =>
    intro b len
    simp [encRleAux, flattenRecs, bool2nat_beq]
  | cons a l ih =>
    intro b len
    rw [encRleAux]
    by_cases hv : (if a then (1 : Nat) else 0) = if b then (1 : Nat) else 0
    · have hab : a = b := (bool2nat_inj a b).mp hv
      subst hab
      rw [if_pos hv, ih a (len + 1), List.replicate_succ' len a]
      simp
    · have hab : ¬ a = b := fun h => hv (by rw [h])
      rw [if_neg hv, flattenRecs_cons, ih a 1]
      simp [bool2nat_beq]

theorem flattenRecs_encodeRow (row : List Bool) :
    flattenRecs (_encode_rle_row row) = row := by
  cases row with
  | nil => rfl
  | cons b rest =>
    rw [_encode_rle_row]
    rw [flattenRecs_encRleAux rest b 1]
    simp

theorem splitRunF_mem (v : Nat) :
    ∀ fuel n, n ≤ fuel → ∀ r ∈ splitRunF v fuel n, 1 ≤ r.1 ∧ r.1 ≤ 65535 ∧ r.2 = v := by
  intro fuel
  induction fuel with
  | zero =>
    intro n hn r hr
    simp [splitRunF] at hr
  | succ fuel ih =>
    intro n hn r hr
    match n, hr with
    | 0, hr => simp [splitRunF] at hr
    | m + 1, hr =>
      rw [splitRunF] at hr
      simp only [List.mem_cons] at hr
      rcases hr with hr | hr
      · subst hr
        refine ⟨?_, ?_, rfl⟩
        · show 1 ≤ min (m + 1) 65535
          omega
        · show min (m + 1) 65535 ≤ 65535
          omega
      · exact ih (m + 1 - min (m + 1) 65535) (by omega) r hr

theorem flattenRecs_splitRunF (v : Nat) :
    ∀ fuel n, n ≤ fuel →
      flattenRecs (splitRunF v fuel n) = List.replicate n (v == 1) := by
  intro fuel
  induction fuel with
  | zero =>
    intro n hn
    interval_cases n
    rfl
  | succ fuel ih =>
    intro n hn
    match n with
    | 0 => rfl
    | m + 1 =>
      rw [splitRunF, flattenRecs_cons]
      rw [ih (m + 1 - min (m + 1) 65535) (by omega)]
      rw [← List.replicate_add]
      congr 1
      omega

theorem flattenRecs_splitRun (n v : Nat) :
    flattenRecs (splitRun n v) = List.replicate n (v == 1) :=
  flattenRecs_splitRunF v n n le_rfl

theorem splitRun_mem (n v : Nat) :
    ∀ r ∈ splitRun n v, 1 ≤ r.1 ∧ r.1 ≤ 65535 ∧ r.2 = v :=
  splitRunF_mem v n n le_rfl

theorem flattenRecs_flatMap_splitRun (rs : List (Nat × Nat)) :
    flattenRecs (rs.flatMap fun r => splitRun r.1 r.2) = flattenRecs rs := by
  induction rs with
  | nil => rfl
  | cons r rs ih =>
    simp only [List.flatMap_cons]
    rw [flattenRecs_append, ih, flattenRecs_splitRun, flattenRecs_cons]

theorem flattenRecs_rowRecords (row : List Bool) :
    flattenRecs (rowRecords row) = row := by
  rw [rowRecords, flattenRecs_flatMap_splitRun, flattenRecs_encodeRow]

theorem rowRecords_pos (row : List Bool) : ∀ r ∈ rowRecords row, 1 ≤ r.1 := by
  intro r hr
  rw [rowRecords] at hr
  simp only [List.mem_flatMap] at hr
  obtain ⟨q, _, hq⟩ := hr
  exact (splitRun_mem q.1 q.2 r hq).1

theorem sumLens_rowRecords (row : List Bool) : sumLens (rowRecords row) = row.length := by
  have h := congrArg List.length (flattenRecs_rowRecords row)
  rw [length_flattenRecs] at h
  exact h

/-- A row's bytes decode back to exactly that row, leaving the suffix. -/
theorem decodeRow_rowBytes (row : List Bool) (rest : List Nat) :
    decodeRowAux row.length (rowBytes row ++ rest) = .ok (row, rest) := by
  have h := decode_recsBytes (rowRecords row) rest (rowRecords_pos row)
  rw [sumLens_rowRecords, flattenRecs_rowRecords] at h
  exact h

/-- Any list of rows of width `dimX` decodes back from its concatenated
row bytes. -/
theorem decodeRows_flatMap (dimX : Nat) :
    ∀ (rows : List (List Bool)) (rest : List Nat),
      (∀ r ∈ rows, r.length = dimX) →
      decodeRowsAux rows.length dimX (rows.flatMap rowBytes ++ rest) = .ok (rows, rest) := by
  intro rows
  induction rows with
  | nil => intro rest _; rfl
  | cons row rows ih =>
    intro rest hlen
    have hrow : row.length = dimX := hlen row (by simp)
    have h1 : decodeRowAux dimX (rowBytes row ++ (rows.flatMap rowBytes ++ rest)) =
        .ok (row, rows.flatMap rowBytes ++ rest) := by
      rw [← hrow]
      exact decodeRow_rowBytes row (rows.flatMap rowBytes ++ rest)
    have h2 : decodeRowsAux rows.length dimX (rows.flatMap rowBytes ++ rest) =
        .ok (rows, rest) := ih rest (fun r hr => hlen r (by simp [hr]))
    simp only [List.flatMap_cons, List.length_cons, List.append_assoc]
    rw [decodeRowsAux]
    simp only [h1, h2]

end Stella

namespace Stella

theorem gridRows_length (g : Nat → Nat → Nat → Bool) (dimX dimY dimZ : Nat) :
    (gridRows g dimX dimY dimZ).length = dimZ * dimY := by
  rw [gridRows, List.length_flatMap]
  have h : ∀ z, ((List.range dimY).map fun y =>
      (List.range dimX).map fun x => g x y z).length = dimY := by
    intro z; simp
  simp only [Function.comp_def, h, List.map_const', List.length_range,
    List.sum_replicate, smul_eq_mul, Nat.mul_comm]

theorem gridRows_width (g : Nat → Nat → Nat → Bool) (dimX dimY dimZ : Nat) :
    ∀ r ∈ gridRows g dimX dimY dimZ, r.length = dimX := by
  intro r hr
  simp only [gridRows, List.mem_flatMap, List.mem_map, List.mem_range] at hr
  obtain ⟨z, _, y, _, rfl⟩ := hr
  simp

theorem u32_decomp (n : Nat) (h : n < 4294967296) :
    n % 256 + 256 * (n / 256 % 256) + 65536 * (n / 65536 % 256) +
      16777216 * (n / 16777216 % 256) = n := by
  omega

/-- **C1 core**: decoding the writer's output recovers the dimensions, the
float32 bit patterns, and every cell of the grid. -/
theorem read_write_rlevox (g : Nat → Nat → Nat → Bool) (dX dY dZ vs ox oy oz : Nat)
    (hx : dX < 4294967296) (hy : dY < 4294967296) (hz : dZ < 4294967296)
    (hvs : vs < 4294967296) (hox : ox < 4294967296) (hoy : oy < 4294967296)
    (hoz : oz < 4294967296) :
    read_rlevox (write_rlevox g dX dY dZ vs ox oy oz) =
      .ok ⟨dX, dY, dZ, vs, ox, oy, oz, gridRows g dX dY dZ⟩ := by
  have hdr20 : HEADER_SIZE - (writeHeader dX dY dZ vs ox oy oz).length = 20 := by
    simp [writeHeader, MAGIC, ENCODING, u16le, u32le, HEADER_SIZE]
  have hrep : List.replicate 20 (0 : Nat) =
      0 :: 0 :: 0 :: 0 :: List.replicate 16 0 := rfl
  have hlen64 : (writeHeader dX dY dZ vs ox oy oz ++ List.replicate 20 0).length = 64 := by
    simp [writeHeader, MAGIC, ENCODING, u16le, u32le]
  have hpay : (write_rlevox g dX dY dZ vs ox oy oz).drop 64 =
      (gridRows g dX dY dZ).flatMap rowBytes := by
    rw [write_rlevox]
    simp only [hdr20]
    rw [← hlen64, List.drop_left]
  have hrows : decodeRowsAux (dZ * dY) dX ((gridRows g dX dY dZ).flatMap rowBytes) =
      .ok (gridRows g dX dY dZ, []) := by
    have h := decodeRows_flatMap dX (gridRows g dX dY dZ) []
      (gridRows_width g dX dY dZ)
    rw [gridRows_length] at h
    simpa using h
  rw [write_rlevox]
  simp only [hdr20, hrep]
  rw [writeHeader]
  simp only [MAGIC, ENCODING, u16le, u32le, VERSION, HEADER_SIZE,
    List.cons_append, List.nil_append, List.append_assoc]
  rw [read_rlevox]
  rw [if_neg (by decide : ¬ ([83, 84, 86, 88] ≠ MAGIC))]
  rw [if_neg (by decide : ¬ (1 % 256 + 256 * (1 / 256) ≠ VERSION))]
  simp only [Nat.reduceMod, Nat.reduceDiv, Nat.reduceMul, Nat.reduceAdd]
  simp only [u32_decomp dX hx, u32_decomp dY hy, u32_decomp dZ hz, u32_decomp vs hvs,
    u32_decomp ox hox, u32_decomp oy hoy, u32_decomp oz hoz]
  have hchain : List.drop 64 (83 ::
      84 ::
      86 ::
      88 ::
      1 ::
      0 ::
      64 ::
      0 ::
      dX % 256 ::
      dX / 256 % 256 ::
      dX / 65536 % 256 ::
      dX / 16777216 % 256 ::
      dY % 256 ::
      dY / 256 % 256 ::
      dY / 65536 % 256 ::
      dY / 16777216 % 256 ::
      dZ % 256 ::
      dZ / 256 % 256 ::
      dZ / 65536 % 256 ::
      dZ / 16777216 % 256 ::
      vs % 256 ::
      vs / 256 % 256 ::
      vs / 65536 % 256 ::
      vs / 16777216 % 256 ::
      ox % 256 ::
      ox / 256 % 256 ::
      ox / 65536 % 256 ::
      ox / 16777216 % 256 ::
      oy % 256 ::
      oy / 256 % 256 ::
      oy / 65536 % 256 ::
      oy / 16777216 % 256 ::
      oz % 256 ::
      oz / 256 % 256 ::
      oz / 65536 % 256 ::
      oz / 16777216 % 256 ::
      82 ::
      76 ::
      69 ::
      49 ::
      0 ::
      0 ::
      0 ::
      0 ::
      0 ::
      0 ::
      0 ::
      0 ::
      (List.replicate 16 0 ++ (gridRows g dX dY dZ).flatMap rowBytes)) =
      (gridRows g dX dY dZ).flatMap rowBytes := rfl
  rw [hchain, hrows]
  rw [if_neg (by decide : ¬ ([82, 76, 69, 49] ≠ ENCODING))]

end Stella

namespace Stella

theorem encRleAux_replicate_absorb (b : Bool) :
    ∀ (m len : Nat) (tail : List Bool),
      encRleAux (if b then 1 else 0) len (List.replicate m b ++ tail) =
        encRleAux (if b then 1 else 0) (len + m) tail := by
  intro m
  induction m with
  | zero => intro len tail; simp
  | succ m ih =>
    intro len tail
    rw [List.replicate_succ, List.cons_append, encRleAux]
    simp only [if_pos rfl]
    rw [ih (len + 1) tail]
    have h : len + 1 + m = len + (m + 1) := by omega
    rw [h]
    simp

theorem encRleAux_groups :
    ∀ (groups : List (Nat × Bool)),
      (∀ p ∈ groups, 1 ≤ p.1) →
      List.Chain' (fun a b => a.2 ≠ b.2) groups →
      ∀ (b : Bool) (len : Nat),
        (∀ p, groups.head? = some p → p.2 ≠ b) →
        encRleAux (if b then 1 else 0) len (groups.flatMap fun p => List.replicate p.1 p.2) =
          (len, if b then 1 else 0) :: groups.map fun p => (p.1, if p.2 then 1 else 0) := by
  intro groups
  induction groups with
  | nil => intro _ _ b len _; rfl
  | cons p gs ih =>
    obtain ⟨m, c⟩ := p
    intro hpos hchain b len hhd
    have hm : 1 ≤ m := hpos (m, c) (by simp)
    have hcb : c ≠ b := hhd (m, c) rfl
    have hrep : List.replicate m c = c :: List.replicate (m - 1) c := by
      cases m with
      | zero => omega
      | succ m => simp [List.replicate_succ]
    simp only [List.flatMap_cons]
    rw [hrep, List.cons_append]
    rw [encRleAux]
    have hvne : ¬ ((if c then (1 : Nat) else 0) = if b then (1 : Nat) else 0) := by
      simp [bool2nat_inj]; exact hcb
    rw [if_neg hvne]
    rw [encRleAux_replicate_absorb c (m - 1) 1 (gs.flatMap fun p => List.replicate p.1 p.2)]
    have h1m : 1 + (m - 1) = m := by omega
    rw [h1m]
    rw [ih (fun q hq => hpos q (by simp [hq])) hchain.tail c m
      (fun q hq => ((List.chain'_cons'.mp hchain).1 q hq).symm)]
    simp

theorem encodeRow_groups (groups : List (Nat × Bool)) (hne : groups ≠ [])
    (hpos : ∀ p ∈ groups, 1 ≤ p.1)
    (hchain : List.Chain' (fun a b => a.2 ≠ b.2) groups) :
    _encode_rle_row (groups.flatMap fun p => List.replicate p.1 p.2) =
      groups.map fun p => (p.1, if p.2 then 1 else 0) := by
  match groups, hne with
  | (m, c) :: gs, _ =>
    have hm : 1 ≤ m := hpos (m, c) (by simp)
    have hrep : List.replicate m c = c :: List.replicate (m - 1) c := by
      cases m with
      | zero => omega
      | succ m => simp [List.replicate_succ]
    simp only [List.flatMap_cons]
    rw [hrep, List.cons_append, _encode_rle_row]
    rw [encRleAux_replicate_absorb c (m - 1) 1 (gs.flatMap fun p => List.replicate p.1 p.2)]
    have h1m : 1 + (m - 1) = m := by omega
    rw [h1m]
    rw [encRleAux_groups gs (fun q hq => hpos q (by simp [hq])) hchain.tail c m
      (fun q hq => ((List.chain'_cons'.mp hchain).1 q hq).symm)]
    simp

theorem splitRunF_zero (v fuel : Nat) : splitRunF v fuel 0 = [] := by
  cases fuel <;> rfl

theorem splitRunF_succ (v fuel r : Nat) :
    splitRunF v (fuel + 1) (r + 1) =
      (min (r + 1) 65535, v) :: splitRunF v fuel (r + 1 - min (r + 1) 65535) := rfl

theorem splitRun_single (n v : Nat) (h1 : 1 ≤ n) (h2 : n ≤ 65535) :
    splitRun n v = [(n, v)] := by
  match n, h1 with
  | m + 1, _ =>
    rw [splitRun, splitRunF_succ]
    have hmin : min (m + 1) 65535 = m + 1 := by omega
    rw [hmin]
    simp [splitRunF_zero]

theorem sumLens_splitRun (n v : Nat) : sumLens (splitRun n v) = n := by
  have h := congrArg List.length (flattenRecs_splitRun n v)
  rw [length_flattenRecs] at h
  simpa using h

theorem rowRecords_replicate_200000 :
    rowRecords (List.replicate 200000 true) = splitRun 200000 1 := by
  have henc : _encode_rle_row (List.replicate 200000 true) = [(200000, 1)] := by
    have h0 : ([((200000 : Nat), true)].flatMap fun p => List.replicate p.1 p.2) =
        List.replicate 200000 true := by
      simp only [List.flatMap_cons, List.flatMap_nil, List.append_nil]
    rw [← h0, encodeRow_groups [(200000, true)] (by simp) (by norm_num) (by simp)]
    rfl
  rw [rowRecords, henc]
  simp

theorem splitRun_200000 :
    splitRun 200000 1 = [(65535, 1), (65535, 1), (65535, 1), (3395, 1)] := by
  rw [splitRun]
  rw [show (200000 : Nat) = 199999 + 1 from rfl, splitRunF_succ]
  norm_num
  rw [show (199999 : Nat) = 199998 + 1 from rfl, show (134465 : Nat) = 134464 + 1 from rfl,
    splitRunF_succ]
  norm_num
  rw [show (199998 : Nat) = 199997 + 1 from rfl, show (68930 : Nat) = 68929 + 1 from rfl,
    splitRunF_succ]
  norm_num
  rw [show (199997 : Nat) = 199996 + 1 from rfl, show (3395 : Nat) = 3394 + 1 from rfl,
    splitRunF_succ]
  norm_num
  exact splitRunF_zero 1 199996

end Stella

namespace Stella

/-- **C1**: codec round-trip.  For every boolean 3D voxel field (dimensions
at least 1, each representable in the `uint32` header), decoding the bytes
produced by encoding yields every cell bit-for-bit (`gridRows` lists every
`g x y z`), and the recovered `voxel_size`/`origin` 32-bit float patterns
equal the stored ones exactly. -/
theorem C1_codec_roundtrip (g : Nat → Nat → Nat → Bool) (dX dY dZ vs ox oy oz : Nat)
    (hx1 : 1 ≤ dX) (hy1 : 1 ≤ dY) (hz1 : 1 ≤ dZ)
    (hx : dX < 4294967296) (hy : dY < 4294967296) (hz : dZ < 4294967296)
    (hvs : vs < 4294967296) (hox : ox < 4294967296) (hoy : oy < 4294967296)
    (hoz : oz < 4294967296) :
    read_rlevox (write_rlevox g dX dY dZ vs ox oy oz) =
      .ok ⟨dX, dY, dZ, vs, ox, oy, oz, gridRows g dX dY dZ⟩ :=
  read_write_rlevox g dX dY dZ vs ox oy oz hx hy hz hvs hox hoy hoz

/-- **C1 witness**: the round trip evaluated on a concrete 2×2×1 field. -/
theorem C1_codec_roundtrip_witness :
    read_rlevox (write_rlevox (fun x y _ => x = y) 2 2 1 1036831949 0 0 1065353216) =
      .ok ⟨2, 2, 1, 1036831949, 0, 0, 1065353216,
        [[true, false], [false, true]]⟩ :=
  (C1_codec_roundtrip (fun x y _ => x = y) 2 2 1 1036831949 0 0 1065353216
    (by decide) (by decide) (by decide) (by decide) (by decide) (by decide)
    (by decide) (by decide) (by decide) (by decide)).trans (by rfl)

/-- A byte stream with a valid header (dims 2×1×1) whose single row record
declares a run of length 5 — overshooting `dim_x = 2` by 3. -/
def overshootStream : List Nat :=
  (writeHeader 2 1 1 0 0 0 0 ++ List.replicate 20 0) ++ [5, 0, 1, 0]

/-- **C2**: the decoder *accepts* a row whose accumulated run length
overshoots `dim_x` (the source clamps with `end_x = min(x + run_length,
dim_x)`, so `x` always lands exactly on `dim_x` and the row-length-mismatch
branch is unreachable).  On the overshooting stream it returns the clamped
grid instead of the `RowLengthMismatch` error the claim demands. -/
theorem C2_overshoot_accepted :
    read_rlevox overshootStream = .ok ⟨2, 1, 1, 0, 0, 0, 0, [[true, true]]⟩ := rfl

theorem length_records_of_groups (rs : List (Nat × Bool))
    (hb : ∀ p ∈ rs, 1 ≤ p.1 ∧ p.1 ≤ 65535) :
    ((rs.map fun p => (p.1, if p.2 then 1 else 0)).flatMap fun r =>
      splitRun r.1 r.2).length = rs.length := by
  induction rs with
  | nil => rfl
  | cons p gs ih =>
    simp only [List.map_cons, List.flatMap_cons, List.length_append, List.length_cons]
    rw [splitRun_single p.1 (if p.2 then 1 else 0) (hb p (by simp)).1 (hb p (by simp)).2]
    rw [ih (fun q hq => hb q (by simp [hq]))]
    simp [Nat.add_comm]

/-- **C8**: run minimality and splitting.  (1) A row made of `k` maximal
runs (adjacent groups of distinct value, each of length in `[1, 65535]`)
produces exactly `k` run records.  (2) Splitting a run of any length emits
consecutive records of that run's value, each of length in `[1, 65535]`,
whose lengths sum to the run length.  (3) An all-true row of length 200000
produces exactly 4 records. -/
theorem C8_run_minimality :
    (∀ (groups : List (Nat × Bool)), groups ≠ [] →
        (∀ p ∈ groups, 1 ≤ p.1 ∧ p.1 ≤ 65535) →
        List.Chain' (fun a b => a.2 ≠ b.2) groups →
        (rowRecords (groups.flatMap fun p => List.replicate p.1 p.2)).length =
          groups.length) ∧
    (∀ n v, (∀ r ∈ splitRun n v, 1 ≤ r.1 ∧ r.1 ≤ 65535 ∧ r.2 = v) ∧
        sumLens (splitRun n v) = n) ∧
    (rowRecords (List.replicate 200000 true)).length = 4 := by
  refine ⟨?_, ?_, ?_⟩
  · intro groups hne hb hchain
    rw [rowRecords, encodeRow_groups groups hne (fun p hp => (hb p hp).1) hchain]
    exact length_records_of_groups groups hb
  · intro n v
    exact ⟨splitRun_mem n v, sumLens_splitRun n v⟩
  · rw [rowRecords_replicate_200000, splitRun_200000]
    rfl

end Stella

namespace Stella

/-- **C8 witness**: a 2-run row yields 2 records; a 70000-run sums back. -/
theorem C8_run_minimality_witness :
    (rowRecords [true, true, false]).length = 2 ∧ sumLens (splitRun 70000 1) = 70000 :=
  ⟨C8_run_minimality.1 [(2, true), (1, false)] (by decide) (by decide) (by simp),
   (C8_run_minimality.2.1 70000 1).2⟩

/-- **C9**: coordinate inverse.  In the exact-arithmetic model of the
float helpers, for every integer index and positive voxel size,
`world_to_grid (grid_to_world i) = i`. -/
theorem C9_coordinate_inverse (i : ℤ) (voxel_size origin : ℚ)
    (h : 0 < voxel_size) :
    world_to_grid (grid_to_world i voxel_size origin) voxel_size origin = i := by
  unfold grid_to_world world_to_grid
  have hne : voxel_size ≠ 0 := ne_of_gt h
  have h2 : (origin + ((i : ℚ) + 1/2) * voxel_size - origin) / voxel_size =
      (i : ℚ) + 1/2 := by
    field_simp
    ring
  rw [h2, Int.floor_int_add]
  norm_num

/-- **C9 witness**: evaluated at index 3, voxel size 1/2, origin 7. -/
theorem C9_coordinate_inverse_witness :
    world_to_grid (grid_to_world 3 (1/2) 7) (1/2) 7 = 3 :=
  C9_coordinate_inverse 3 (1/2) 7 (by norm_num)

end Stella

namespace Stella

/-! ## Package model (package.py)

Archive paths and entry contents are byte/code-point sequences (`Bytes`).
`hashlib.sha256(...).hexdigest()` is an external primitive; it enters the
model as an abstract digest function `h : Bytes → Bytes`. -/

abbrev Bytes := List Nat

/-- Code points of an ASCII string. -/
def asciiBytes (s : String) : Bytes := s.data.map Char.toNat

/-- Lexicographic order on byte sequences: exactly Python's `str`/`bytes`
comparison (code point by code point, shorter prefix first). -/
def bytesLe : Bytes → Bytes → Bool
  | [], _ => true
  | _ :: _, [] => false
  | a :: as, b :: bs => if a < b then true else if b < a then false else bytesLe as bs

/-- `bytesLe` as a relation, for sorting. -/
def pathLe (a b : Bytes) : Prop := bytesLe a b = true

instance : DecidableRel pathLe := fun a b => instDecidableEqBool (bytesLe a b) true

/-- Python tuple comparison on `(path, value)` pairs, as used by
`sorted(dict.items())`. -/
def itemLe (x y : Bytes × Bytes) : Prop :=
  (if x.1 = y.1 then bytesLe x.2 y.2 else bytesLe x.1 y.1) = true

instance : DecidableRel itemLe := fun x y =>
  instDecidableEqBool (if x.1 = y.1 then bytesLe x.2 y.2 else bytesLe x.1 y.1) true

/-- Python `dict` assignment `d[k] = v`: replace in place, else append. -/
def dictSet (d : List (Bytes × Bytes)) (k v : Bytes) : List (Bytes × Bytes) :=
  if k ∈ d.map Prod.fst then d.map fun e => if e.1 = k then (k, v) else e
  else d ++ [(k, v)]

/-- Python `d.update(m)`: assign every entry of `m` in order. -/
def dictUpdate (d m : List (Bytes × Bytes)) : List (Bytes × Bytes) :=
  m.foldl (fun acc e => dictSet acc e.1 e.2) d

/-- Python `d[k]` on a dict with unique keys (default `[]` never hit by the
theorems, which look up present keys). -/
def dlookup (d : List (Bytes × Bytes)) (k : Bytes) : Bytes :=
  ((d.find? fun e => decide (e.1 = k)).map Prod.snd).getD []

def manifest_json : Bytes := asciiBytes "manifest.json"

def checksums_path : Bytes := asciiBytes "checksums.sha256"

/-- `"\n".join(lines)`. -/
def joinNl (lines : List Bytes) : Bytes := List.intercalate [10] lines

/-- `all_files = {"manifest.json": manifest_bytes}; all_files.update(file_map)`. -/
def packAllFiles0 (manifestBytes : Bytes) (fileMap : List (Bytes × Bytes)) :
    List (Bytes × Bytes) :=
  dictUpdate [(manifest_json, manifestBytes)] fileMap

/-- The checksum-manifest lines `f"{hash}  {path}"`: the checksum dict is
populated iterating `sorted(all_files.items())`, then rendered iterating
`sorted(checksums.items())`. -/
def packChecksumItems (h : Bytes → Bytes) (allFiles0 : List (Bytes × Bytes)) :
    List (Bytes × Bytes) :=
  List.insertionSort itemLe
    ((List.insertionSort itemLe allFiles0).map fun e => (e.1, h e.2))

def packChecksumLines (h : Bytes → Bytes) (allFiles0 : List (Bytes × Bytes)) :
    List Bytes :=
  (packChecksumItems h allFiles0).map fun e => e.2 ++ [32, 32] ++ e.1

/-- `all_files` after optionally adding `checksums.sha256`. -/
def packAllFiles (h : Bytes → Bytes) (manifestBytes : Bytes)
    (fileMap : List (Bytes × Bytes)) (includeChecksums : Bool) :
    List (Bytes × Bytes) :=
  if includeChecksums then
    dictSet (packAllFiles0 manifestBytes fileMap) checksums_path
      (joinNl (packChecksumLines h (packAllFiles0 manifestBytes fileMap)))
  else packAllFiles0 manifestBytes fileMap

/-- The entry order: paths sorted, `manifest.json` moved first,
`checksums.sha256` moved last (package.py lines 73-82). -/
def packPaths (h : Bytes → Bytes) (manifestBytes : Bytes)
    (fileMap : List (Bytes × Bytes)) (includeChecksums : Bool) : List Bytes :=
  let sortedPaths := List.insertionSort pathLe
    ((packAllFiles h manifestBytes fileMap includeChecksums).map Prod.fst)
  let s2 := if manifest_json ∈ sortedPaths then
      manifest_json :: sortedPaths.erase manifest_json
    else sortedPaths
  if checksums_path ∈ s2 then s2.erase checksums_path ++ [checksums_path]
  else s2

/-- `pack_stella` (package.py lines 50-89), as the ordered list of
`(path, data)` entries written into the ZIP. -/
def pack_stella (h : Bytes → Bytes) (manifestBytes : Bytes)
    (fileMap : List (Bytes × Bytes)) (includeChecksums : Bool) :
    List (Bytes × Bytes) :=
  (packPaths h manifestBytes fileMap includeChecksums).map fun p =>
    (p, dlookup (packAllFiles h manifestBytes fileMap includeChecksums) p)

/-! ## File-system effect trace of `pack_stella` (for the atomicity claim)

The source's side effects, in order: `output_path.parent.mkdir(...)`, then
`zipfile.ZipFile(output_path, "w", ...)` (which opens — creates or
truncates — the destination itself), then one `zf.writestr` per entry,
then close.  No temporary file and no rename appear anywhere. -/

inductive FsOp
  | mkdirParents (dir : String)
  | openWrite (file : String)
  | writeEntry (arcPath : Bytes) (data : Bytes)
  | closeFile (file : String)
deriving DecidableEq

/-- The operations `pack_stella` performs against the file system. -/
def pack_stella_ops (outputPath parentDir : String) (h : Bytes → Bytes)
    (manifestBytes : Bytes) (fileMap : List (Bytes × Bytes))
    (includeChecksums : Bool) : List FsOp :=
  FsOp.mkdirParents parentDir :: FsOp.openWrite outputPath ::
    ((pack_stella h manifestBytes fileMap includeChecksums).map fun e =>
      FsOp.writeEntry e.1 e.2) ++ [FsOp.closeFile outputPath]

/-- Which files exist after one operation (`openWrite` creates the file;
nothing ever deletes one). -/
def applyOp (s : String → Bool) : FsOp → (String → Bool)
  | .mkdirParents _ => s
  | .openWrite f => fun q => if q = f then true else s q
  | .writeEntry _ _ => s
  | .closeFile _ => s

def runOps (ops : List FsOp) (s : String → Bool) : String → Bool :=
  ops.foldl applyOp s

theorem runOps_preserve (ops : List FsOp) (s : String → Bool) (p : String)
    (hp : s p = true) : runOps ops s p = true := by
  induction ops generalizing s with
  | nil => exact hp
  | cons op ops ih =>
    cases op with
    | mkdirParents d => exact ih s hp
    | openWrite f =>
      refine ih _ ?_
      simp only [applyOp]
      split <;> simp [hp]
    | writeEntry a b => exact ih s hp
    | closeFile f => exact ih s hp

end Stella

namespace Stella

/-! ## Python dict lemmas -/

theorem dlookup_cons_self (e : Bytes × Bytes) (d : List (Bytes × Bytes)) :
    dlookup (e :: d) e.1 = e.2 := by
  unfold dlookup
  rw [List.find?_cons_of_pos _ (by simp)]
  rfl

theorem dlookup_cons_other (e : Bytes × Bytes) (d : List (Bytes × Bytes))
    (k' : Bytes) (hne : e.1 ≠ k') : dlookup (e :: d) k' = dlookup d k' := by
  unfold dlookup
  rw [List.find?_cons_of_neg _ (by simp [hne])]

theorem dlookup_map_replace_self (d : List (Bytes × Bytes)) (k v : Bytes)
    (hk : k ∈ d.map Prod.fst) :
    dlookup (d.map fun e => if e.1 = k then (k, v) else e) k = v := by
  induction d with
  | nil => simp at hk
  | cons e d ih =>
    simp only [List.map_cons]
    by_cases he : e.1 = k
    · rw [if_pos he]
      exact dlookup_cons_self (k, v) _
    · rw [if_neg he]
      rw [dlookup_cons_other e _ k he]
      refine ih ?_
      simp only [List.map_cons, List.mem_cons] at hk
      rcases hk with h | h
      · exact absurd h.symm he
      · exact h

theorem dlookup_map_replace_other (d : List (Bytes × Bytes)) (k v k' : Bytes)
    (hne : k' ≠ k) :
    dlookup (d.map fun e => if e.1 = k then (k, v) else e) k' = dlookup d k' := by
  induction d with
  | nil => rfl
  | cons e d ih =>
    simp only [List.map_cons]
    by_cases he : e.1 = k
    · rw [if_pos he, dlookup_cons_other (k, v) _ k' (fun h => hne h.symm),
        dlookup_cons_other e _ k' (by rw [he]; exact fun h => hne h.symm), ih]
    · rw [if_neg he]
      by_cases hek : e.1 = k'
      · subst hek
        rw [dlookup_cons_self e _, dlookup_cons_self e _]
      · rw [dlookup_cons_other e _ k' hek, dlookup_cons_other e _ k' hek, ih]

theorem dlookup_append_not_mem (d l : List (Bytes × Bytes)) (k : Bytes)
    (hk : ¬ k ∈ d.map Prod.fst) : dlookup (d ++ l) k = dlookup l k := by
  induction d with
  | nil => rfl
  | cons e d ih =>
    have he : e.1 ≠ k := fun h => hk (by simp [h])
    have hk' : ¬ k ∈ d.map Prod.fst := fun h => hk (by simp [h])
    rw [List.cons_append, dlookup_cons_other e _ k he]
    exact ih hk'

theorem dlookup_append_mem (d l : List (Bytes × Bytes)) (k : Bytes)
    (hk : k ∈ d.map Prod.fst) : dlookup (d ++ l) k = dlookup d k := by
  induction d with
  | nil => simp at hk
  | cons e d ih =>
    rw [List.cons_append]
    by_cases he : e.1 = k
    · rw [← he, dlookup_cons_self e _, dlookup_cons_self e _]
    · rw [dlookup_cons_other e _ k he, dlookup_cons_other e _ k he]
      refine ih ?_
      simp only [List.map_cons, List.mem_cons] at hk
      rcases hk with h | h
      · exact absurd h.symm he
      · exact h

theorem dlookup_not_mem (d : List (Bytes × Bytes)) (k : Bytes)
    (hk : ¬ k ∈ d.map Prod.fst) : dlookup d k = [] := by
  induction d with
  | nil => rfl
  | cons e d ih =>
    have he : e.1 ≠ k := fun h => hk (by simp [h])
    rw [dlookup_cons_other e _ k he]
    exact ih (fun h => hk (by simp [h]))

theorem keys_dictSet (d : List (Bytes × Bytes)) (k v : Bytes) :
    (dictSet d k v).map Prod.fst =
      if k ∈ d.map Prod.fst then d.map Prod.fst else d.map Prod.fst ++ [k] := by
  unfold dictSet
  split
  · rw [List.map_map]
    refine List.map_congr_left ?_
    intro e _
    simp only [Function.comp_apply]
    split
    · rename_i he; simp [he]
    · rfl
  · simp

theorem mem_keys_dictSet (d : List (Bytes × Bytes)) (k v k' : Bytes) :
    k' ∈ (dictSet d k v).map Prod.fst ↔ k' ∈ d.map Prod.fst ∨ k' = k := by
  rw [keys_dictSet]
  split
  · rename_i hk
    constructor
    · exact fun h => Or.inl h
    · rintro (h | rfl)
      · exact h
      · exact hk
  · simp

theorem nodup_keys_dictSet (d : List (Bytes × Bytes)) (k v : Bytes)
    (hd : (d.map Prod.fst).Nodup) : ((dictSet d k v).map Prod.fst).Nodup := by
  rw [keys_dictSet]
  split
  · exact hd
  · rename_i hk
    simp [List.nodup_append, hd, hk]

theorem nodup_keys_dictUpdate (m : List (Bytes × Bytes)) :
    ∀ d, (d.map Prod.fst).Nodup → ((dictUpdate d m).map Prod.fst).Nodup := by
  induction m with
  | nil => intro d hd; exact hd
  | cons e m ih =>
    intro d hd
    exact ih (dictSet d e.1 e.2) (nodup_keys_dictSet d e.1 e.2 hd)

theorem mem_keys_dictUpdate (m : List (Bytes × Bytes)) :
    ∀ d k, k ∈ (dictUpdate d m).map Prod.fst ↔
      k ∈ d.map Prod.fst ∨ k ∈ m.map Prod.fst := by
  induction m with
  | nil => intro d k; simp [dictUpdate]
  | cons e m ih =>
    intro d k
    show k ∈ (dictUpdate (dictSet d e.1 e.2) m).map Prod.fst ↔ _
    rw [ih, mem_keys_dictSet]
    simp only [List.map_cons, List.mem_cons]
    tauto

theorem dlookup_dictSet_self (d : List (Bytes × Bytes)) (k v : Bytes) :
    dlookup (dictSet d k v) k = v := by
  unfold dictSet
  split
  · rename_i hk
    exact dlookup_map_replace_self d k v hk
  · rename_i hk
    rw [dlookup_append_not_mem d _ k hk]
    exact dlookup_cons_self (k, v) []

theorem dlookup_dictSet_other (d : List (Bytes × Bytes)) (k v k' : Bytes)
    (hne : k' ≠ k) : dlookup (dictSet d k v) k' = dlookup d k' := by
  unfold dictSet
  split
  · exact dlookup_map_replace_other d k v k' hne
  · by_cases hk' : k' ∈ d.map Prod.fst
    · exact dlookup_append_mem d _ k' hk'
    · rw [dlookup_append_not_mem d _ k' hk',
        dlookup_cons_other (k, v) [] k' (fun h => hne h.symm),
        dlookup_not_mem d k' hk']
      rfl

theorem dlookup_dictUpdate_not_mem (m : List (Bytes × Bytes)) :
    ∀ d k, ¬ k ∈ m.map Prod.fst → dlookup (dictUpdate d m) k = dlookup d k := by
  induction m with
  | nil => intro d k _; rfl
  | cons e m ih =>
    intro d k hk
    have h1 : ¬ k ∈ m.map Prod.fst := fun h => hk (by simp [h])
    have h2 : k ≠ e.1 := fun h => hk (by simp [h])
    show dlookup (dictUpdate (dictSet d e.1 e.2) m) k = _
    rw [ih (dictSet d e.1 e.2) k h1, dlookup_dictSet_other d e.1 e.2 k h2]

theorem dlookup_dictUpdate_mem (m : List (Bytes × Bytes)) :
    ∀ d k, (m.map Prod.fst).Nodup → k ∈ m.map Prod.fst →
      dlookup (dictUpdate d m) k = dlookup m k := by
  induction m with
  | nil => intro d k _ hk; simp at hk
  | cons e m ih =>
    intro d k hnd hk
    show dlookup (dictUpdate (dictSet d e.1 e.2) m) k = _
    by_cases hke : k = e.1
    · have hnm : ¬ k ∈ m.map Prod.fst := by
        rw [hke]
        simp only [List.map_cons, List.nodup_cons] at hnd
        exact hnd.1
      rw [dlookup_dictUpdate_not_mem m _ k hnm, hke, dlookup_dictSet_self,
        dlookup_cons_self e m]
    · have hkm : k ∈ m.map Prod.fst := by
        simp only [List.map_cons, List.mem_cons] at hk
        rcases hk with h | h
        · exact absurd h hke
        · exact h
      rw [ih _ k (by simp only [List.map_cons, List.nodup_cons] at hnd; exact hnd.2) hkm,
        dlookup_cons_other e m k (fun h => hke h.symm)]

end Stella

namespace Stella

/-- **C3 counterexample**: a concrete pack run in which a failure after the
destination has been opened (i.e. during entry writing, before the archive
is fully assembled) leaves a file at the destination path even though none
existed before the call — contradicting the claim that no file exists at
the destination after a partial failure. -/
theorem C3_pack_not_atomic :
    2 < (pack_stella_ops "out.stella" "." (fun _ => []) [] [] false).length ∧
    runOps ((pack_stella_ops "out.stella" "." (fun _ => []) [] [] false).take 2)
      (fun _ => false) "out.stella" = true := by
  constructor
  · decide
  · decide

/-- **C3 amended**: `pack_stella` performs no temporary-file write and no
rename; its first file operations are `mkdir` of the parent and opening
the destination itself for writing, before any entry is written, so after
any failure from that point on a file exists at the destination path. -/
theorem C3_pack_writes_destination_directly (outputPath parentDir : String)
    (h : Bytes → Bytes) (manifestBytes : Bytes) (fileMap : List (Bytes × Bytes))
    (includeChecksums : Bool) (s : String → Bool) (k : Nat) (hk : 2 ≤ k) :
    (pack_stella_ops outputPath parentDir h manifestBytes fileMap
        includeChecksums).take 2 =
      [FsOp.mkdirParents parentDir, FsOp.openWrite outputPath] ∧
    runOps ((pack_stella_ops outputPath parentDir h manifestBytes fileMap
        includeChecksums).take k) s outputPath = true := by
  constructor
  · rfl
  · obtain ⟨m, rfl⟩ : ∃ m, k = m + 2 := ⟨k - 2, by omega⟩
    have h2 : (applyOp (applyOp s (FsOp.mkdirParents parentDir))
        (FsOp.openWrite outputPath)) outputPath = true := by
      simp [applyOp]
    show runOps (List.take m
        ((pack_stella h manifestBytes fileMap includeChecksums).map
          (fun e => FsOp.writeEntry e.1 e.2) ++ [FsOp.closeFile outputPath]))
      (applyOp (applyOp s (FsOp.mkdirParents parentDir))
        (FsOp.openWrite outputPath)) outputPath = true
    exact runOps_preserve _ _ _ h2

/-- **C3 amended witness**: evaluated on the concrete run of the
counterexample, with failure point after three operations. -/
theorem C3_pack_writes_destination_directly_witness :
    (pack_stella_ops "out.stella" "." (fun _ => []) [] [] false).take 2 =
      [FsOp.mkdirParents ".", FsOp.openWrite "out.stella"] ∧
    runOps ((pack_stella_ops "out.stella" "." (fun _ => []) [] [] false).take 3)
      (fun _ => false) "out.stella" = true :=
  C3_pack_writes_destination_directly "out.stella" "." (fun _ => []) [] [] false
    (fun _ => false) 3 (by decide)

/-- **C10**: when the caller's payload map itself contains the key
`manifest.json`, the packed archive's `manifest.json` entry (the first
entry) holds the caller-supplied bytes, not the canonical serialization:
`all_files.update(file_map)` lets the payload map win. -/
theorem C10_payload_shadows_manifest (h : Bytes → Bytes) (manifestBytes : Bytes)
    (fileMap : List (Bytes × Bytes)) (includeChecksums : Bool)
    (hnd : (fileMap.map Prod.fst).Nodup)
    (hmem : manifest_json ∈ fileMap.map Prod.fst) :
    (pack_stella h manifestBytes fileMap includeChecksums).head? =
      some (manifest_json, dlookup fileMap manifest_json) := by
  have hmjck : manifest_json ≠ checksums_path := by decide
  have haf0 : dlookup (packAllFiles0 manifestBytes fileMap) manifest_json =
      dlookup fileMap manifest_json :=
    dlookup_dictUpdate_mem fileMap _ manifest_json hnd hmem
  have haf : dlookup (packAllFiles h manifestBytes fileMap includeChecksums)
      manifest_json = dlookup fileMap manifest_json := by
    unfold packAllFiles
    split
    · rw [dlookup_dictSet_other _ _ _ _ hmjck]
      exact haf0
    · exact haf0
  have hmemaf : manifest_json ∈
      (packAllFiles h manifestBytes fileMap includeChecksums).map Prod.fst := by
    unfold packAllFiles
    have h0 : manifest_json ∈ (packAllFiles0 manifestBytes fileMap).map Prod.fst := by
      unfold packAllFiles0
      rw [mem_keys_dictUpdate]
      exact Or.inr hmem
    split
    · rw [mem_keys_dictSet]
      exact Or.inl h0
    · exact h0
  have hmemsorted : manifest_json ∈ List.insertionSort pathLe
      ((packAllFiles h manifestBytes fileMap includeChecksums).map Prod.fst) :=
    ((List.perm_insertionSort pathLe _).mem_iff).mpr hmemaf
  simp only [pack_stella, packPaths]
  rw [if_pos hmemsorted]
  set rest := (List.insertionSort pathLe
    ((packAllFiles h manifestBytes fileMap includeChecksums).map Prod.fst)).erase
    manifest_json with hrest
  split
  · rename_i hcs
    have herase : (manifest_json :: rest).erase checksums_path =
        manifest_json :: rest.erase checksums_path := by
      rw [List.erase_cons]
      rw [if_neg (by simp [hmjck])]
    rw [herase]
    simp [haf]
  · simp [haf]

end Stella

namespace Stella

/-- **C10 witness**: packing with a payload map that itself binds
`manifest.json` to `[2]` puts `[2]` in the archive, not the serialized
manifest `[1]`. -/
theorem C10_payload_shadows_manifest_witness :
    (pack_stella (fun _ => []) [1] [(manifest_json, [2])] true).head? =
      some (manifest_json, ([2] : Bytes)) :=
  C10_payload_shadows_manifest (fun _ => []) [1] [(manifest_json, [2])] true
    (by simp) (by simp)

/-! ## `verify_stella_checksums` (package.py lines 183-222)

An archive is its ordered list of `(path, content)` entries (`namelist` is
the path list, `zf.read` is `dlookup`).  Python error strings become
tagged constructors carrying the interpolated path:
`malformedLine l` ↔ `f"Malformed checksum line: {line}"`,
`missingFile p` ↔ `f"Missing file: {path}"`,
`checksumMismatch p` ↔ `f"Checksum mismatch for {path}"`,
`noChecksumsNote` ↔ `"No checksums.sha256 file found (not an error)"`,
and for `validate_stella`:
`missingManifestJson` ↔ `"Missing required file: manifest.json"`,
`invalidJsonManifest` ↔ `f"Invalid JSON in manifest.json: {e}"`,
`missingLevelsField` ↔ `"manifest.json missing 'levels' field"`,
`emptyLevelsArray` ↔ `"manifest.json has empty 'levels' array"`,
`missingRequiredFile p` ↔ `f"Missing required file: {p}"`. -/

inductive PkgErr
  | malformedLine (line : Bytes)
  | missingFile (path : Bytes)
  | checksumMismatch (path : Bytes)
  | noChecksumsNote
  | missingManifestJson
  | invalidJsonManifest
  | missingLevelsField
  | emptyLevelsArray
  | missingRequiredFile (path : Bytes)
deriving DecidableEq

/-- Python whitespace bytes, for `str.strip()`. -/
def isWsB (b : Nat) : Bool :=
  b == 32 || b == 9 || b == 10 || b == 13 || b == 11 || b == 12

/-- `content.strip()`. -/
def strip (l : Bytes) : Bytes :=
  ((l.dropWhile isWsB).reverse.dropWhile isWsB).reverse

/-- `content.split("\n")`. -/
def splitNl : Bytes → List Bytes
  | [] => [[]]
  | b :: rest =>
    if b = 10 then [] :: splitNl rest
    else
      match splitNl rest with
      | l :: ls => (b :: l) :: ls
      | [] => [[b]]

/-- `line.split("  ", 1)`: the text before and after the first occurrence
of two consecutive spaces, or `none` when there is none. -/
def findSep : Bytes → Option (Bytes × Bytes)
  | [] => none
  | b :: rest =>
    if b = 32 ∧ rest.head? = some 32 then some ([], rest.tail)
    else (findSep rest).map fun pr => (b :: pr.1, pr.2)

/-- The body of the `for line in ...` loop: `None` when the line produces
no error (`continue` branches), otherwise the error appended. -/
def verifyLine (h : Bytes → Bytes) (archive : List (Bytes × Bytes))
    (line : Bytes) : Option PkgErr :=
  if line = [] then none
  else
    match findSep line with
    | none => some (.malformedLine line)
    | some (expectedHash, path) =>
      if path = checksums_path then none
      else if ¬ path ∈ archive.map Prod.fst then some (.missingFile path)
      else if h (dlookup archive path) ≠ expectedHash then
        some (.checksumMismatch path)
      else none

/-- The loop itself, accumulating errors in order. -/
def verifyLoop (h : Bytes → Bytes) (archive : List (Bytes × Bytes)) :
    List Bytes → List PkgErr
  | [] => []
  | line :: rest =>
    match verifyLine h archive line with
    | none => verifyLoop h archive rest
    | some e => e :: verifyLoop h archive rest

/-- `verify_stella_checksums`: note entry when no checksum manifest exists,
else parse `content.strip().split("\n")` line by line; `ok` is
`len(errors) == 0`. -/
def verify_stella_checksums (h : Bytes → Bytes)
    (archive : List (Bytes × Bytes)) : Bool × List PkgErr :=
  if ¬ checksums_path ∈ archive.map Prod.fst then (true, [.noChecksumsNote])
  else
    let errors := verifyLoop h archive
      (splitNl (strip (dlookup archive checksums_path)))
    (errors.isEmpty, errors)

theorem verifyLoop_eq_filterMap (h : Bytes → Bytes)
    (archive : List (Bytes × Bytes)) (lines : List Bytes) :
    verifyLoop h archive lines = lines.filterMap (verifyLine h archive) := by
  induction lines with
  | nil => rfl
  | cons line rest ih =>
    rw [verifyLoop, List.filterMap_cons]
    cases hv : verifyLine h archive line <;> simp [hv, ih]

theorem findSep_clean (d p : Bytes) (hd : ∀ b ∈ d, isWsB b = false) :
    findSep (d ++ 32 :: 32 :: p) = some (d, p) := by
  induction d with
  | nil => rfl
  | cons b d ih =>
    have hb : isWsB b = false := hd b (by simp)
    have hb32 : ¬ b = 32 := by
      intro h32
      rw [h32] at hb
      simp [isWsB] at hb
    rw [List.cons_append, findSep, if_neg (by simp [hb32]),
      ih (fun x hx => hd x (by simp [hx]))]
    rfl

end Stella

namespace Stella

/-- **C6**: checksum verification semantics.  (1) Without a
checksum-manifest entry the result is `ok` with the single informational
note.  (2) With one, `ok` holds iff the error list is empty.  (3) The
error list is exactly the per-line verdicts of the parsed lines, in
order.  (4) A line `digest ++ "  " ++ path` (whitespace-free digest, as
every hex digest is) is skipped for the self-entry, reports
`Missing file: path` when the path is absent, reports
`Checksum mismatch for path` when the recomputed digest differs, and
nothing otherwise. -/
theorem C6_verify_checksums_semantics :
    (∀ (h : Bytes → Bytes) (archive : List (Bytes × Bytes)),
        ¬ checksums_path ∈ archive.map Prod.fst →
        verify_stella_checksums h archive = (true, [.noChecksumsNote])) ∧
    (∀ (h : Bytes → Bytes) (archive : List (Bytes × Bytes)),
        checksums_path ∈ archive.map Prod.fst →
        ((verify_stella_checksums h archive).1 = true ↔
          (verify_stella_checksums h archive).2 = [])) ∧
    (∀ (h : Bytes → Bytes) (archive : List (Bytes × Bytes)),
        checksums_path ∈ archive.map Prod.fst →
        (verify_stella_checksums h archive).2 =
          (splitNl (strip (dlookup archive checksums_path))).filterMap
            (verifyLine h archive)) ∧
    (∀ (h : Bytes → Bytes) (archive : List (Bytes × Bytes)) (digest path : Bytes),
        (∀ b ∈ digest, isWsB b = false) →
        verifyLine h archive (digest ++ 32 :: 32 :: path) =
          (if path = checksums_path then none
           else if ¬ path ∈ archive.map Prod.fst then some (.missingFile path)
           else if h (dlookup archive path) ≠ digest then
             some (.checksumMismatch path)
           else none)) := by
  refine ⟨?_, ?_, ?_, ?_⟩
  · intro h archive hck
    rw [verify_stella_checksums, if_pos hck]
  · intro h archive hck
    rw [verify_stella_checksums, if_neg (by simp [hck])]
    simp [List.isEmpty_iff]
  · intro h archive hck
    rw [verify_stella_checksums, if_neg (by simp [hck])]
    simp [verifyLoop_eq_filterMap]
  · intro h archive digest path hd
    rw [verifyLine, if_neg (by simp), findSep_clean digest path hd]

/-- **C6 witness**: the no-checksums case on an empty archive, and a
matching line on a one-entry archive. -/
theorem C6_verify_checksums_semantics_witness :
    verify_stella_checksums (fun _ => []) [] = (true, [.noChecksumsNote]) ∧
    verifyLine (fun _ => [97]) [([98], [99])] ([97] ++ 32 :: 32 :: [98]) = none :=
  ⟨C6_verify_checksums_semantics.1 (fun _ => []) [] (by simp),
   (C6_verify_checksums_semantics.2.2.2 (fun _ => [97]) [([98], [99])] [97] [98]
     (by decide)).trans (by decide)⟩

end Stella

namespace Stella

/-! ## Manifest schema model (manifest.py)

JSON values; numbers are modelled as integers (the manifest fields the
parser touches are ints, strings, lists and objects). -/

inductive Json where
  | null
  | bool (b : Bool)
  | num (n : Int)
  | str (s : String)
  | arr (xs : List Json)
  | obj (kvs : List (String × Json))

/-- Python uncaught exceptions raised by `Manifest.from_dict`. -/
inductive PyErr
  | typeError
  | attributeError
deriving DecidableEq

/-- `d.get(k)` on a parsed JSON object. -/
def jget (d : List (String × Json)) (k : String) : Option Json :=
  (d.find? fun e => decide (e.1 = k)).map Prod.snd

/-- Python truthiness of a JSON value. -/
def jTruthy : Json → Bool
  | .null => false
  | .bool b => b
  | .num n => decide (n ≠ 0)
  | .str s => decide (s ≠ "")
  | .arr xs => !xs.isEmpty
  | .obj kvs => !kvs.isEmpty

/-- Dataclass fields hold whatever JSON value was passed — Python
dataclasses do not check field types at runtime. -/
structure AxisM where
  up : Json
  forward : Json
  handedness : Json

structure LevelM where
  id : Json
  path : Json
  name : Json

structure GeneratorM where
  name : Json
  version : Json
  git_commit : Json

structure WorldM where
  title : Json
  tags : Json
  privacy : Json

structure ManifestM where
  format : Json
  version : Json
  created_utc : Json
  units : Json
  axis : AxisM
  levels : List LevelM
  generator : Option GeneratorM
  world : Option WorldM
  assets : Json

def axisKeys : List String := ["up", "forward", "handedness"]

def levelKeys : List String := ["id", "path", "name"]

def generatorKeys : List String := ["name", "version", "git_commit"]

def worldKeys : List String := ["title", "tags", "privacy"]

/-- `Axis(**kvs)`: raises `TypeError` on any unexpected keyword, fills
defaults for absent ones. -/
def Axis_kwargs (kvs : List (String × Json)) : Except PyErr AxisM :=
  if kvs.all fun e => decide (e.1 ∈ axisKeys) then
    .ok ⟨(jget kvs "up").getD (.str "Y"), (jget kvs "forward").getD (.str "-Z"),
         (jget kvs "handedness").getD (.str "right")⟩
  else .error .typeError

/-- `Level(**kvs)`: `id` and `path` have no defaults, `name` does. -/
def Level_kwargs (kvs : List (String × Json)) : Except PyErr LevelM :=
  if kvs.all fun e => decide (e.1 ∈ levelKeys) then
    match jget kvs "id", jget kvs "path" with
    | some i, some p => .ok ⟨i, p, (jget kvs "name").getD .null⟩
    | _, _ => .error .typeError
  else .error .typeError

def Generator_kwargs (kvs : List (String × Json)) : Except PyErr GeneratorM :=
  if kvs.all fun e => decide (e.1 ∈ generatorKeys) then
    .ok ⟨(jget kvs "name").getD (.str "stella-cli"),
         (jget kvs "version").getD (.str "0.1.0"),
         (jget kvs "git_commit").getD .null⟩
  else .error .typeError

def World_kwargs (kvs : List (String × Json)) : Except PyErr WorldM :=
  if kvs.all fun e => decide (e.1 ∈ worldKeys) then
    .ok ⟨(jget kvs "title").getD (.str "Untitled World"),
         (jget kvs "tags").getD (.arr []),
         (jget kvs "privacy").getD (.obj [("contains_source_media", .bool false)])⟩
  else .error .typeError

/-- `[Level(**lvl) for lvl in v]`: lists iterate their elements, each of
which must be a mapping; an empty string or empty dict iterates to
nothing; any other value is either non-iterable (`TypeError`) or yields
non-mappings (`TypeError` from `**`). -/
def levelsFrom : Json → Except PyErr (List LevelM)
  | .arr xs => xs.mapM fun x =>
      match x with
      | .obj kvs => Level_kwargs kvs
      | _ => .error .typeError
  | .str s => if s = "" then .ok [] else .error .typeError
  | .obj kvs => if kvs.isEmpty then .ok [] else .error .typeError
  | _ => .error .typeError

/-- `Axis(**d.get("axis", {}))`: `**` demands a mapping. -/
def axisFrom : Json → Except PyErr AxisM
  | .obj kvs => Axis_kwargs kvs
  | _ => .error .typeError

/-- `if "generator" in d and d["generator"]: Generator(**d["generator"])`. -/
def generatorFrom : Option Json → Except PyErr (Option GeneratorM)
  | some v =>
    if jTruthy v then
      match v with
      | .obj kvs => (Generator_kwargs kvs).map some
      | _ => .error .typeError
    else .ok none
  | none => .ok none

/-- `if "world" in d and d["world"]: World(**d["world"])`. -/
def worldFrom : Option Json → Except PyErr (Option WorldM)
  | some v =>
    if jTruthy v then
      match v with
      | .obj kvs => (World_kwargs kvs).map some
      | _ => .error .typeError
    else .ok none
  | none => .ok none

/-- `Manifest.from_dict` (manifest.py lines 95-119).  `now` stands for
`datetime.now(timezone.utc).isoformat()`, the default applied when
`created_utc` is absent. -/
def Manifest_from_dict (now : String) (d : List (String × Json)) :
    Except PyErr ManifestM := do
  let axis ← axisFrom ((jget d "axis").getD (.obj []))
  let levels ← levelsFrom ((jget d "levels").getD (.arr []))
  let generator ← generatorFrom (jget d "generator")
  let world ← worldFrom (jget d "world")
  .ok ⟨(jget d "format").getD (.str "stella.world"),
       (jget d "version").getD (.num 1),
       (jget d "created_utc").getD (.str now),
       (jget d "units").getD (.str "meters"),
       axis, levels, generator, world,
       (jget d "assets").getD (.obj [])⟩

def manifestTopKeys : List String :=
  ["format", "version", "created_utc", "units", "axis", "levels",
   "generator", "world", "assets"]

end Stella

namespace Stella

theorem jget_append_ne (d : List (String × Json)) (k : String) (v : Json)
    (k' : String) (hne : k' ≠ k) : jget (d ++ [(k, v)]) k' = jget d k' := by
  induction d with
  | nil =>
    simp only [List.nil_append, jget, List.find?]
    rw [decide_eq_false (fun h => hne h.symm)]
  | cons e d ih =>
    by_cases he : e.1 = k'
    · simp only [List.cons_append, jget, List.find?]
      rw [show (decide (e.1 = k')) = true by simp [he]]
    · simp only [List.cons_append, jget, List.find?] at ih ⊢
      rw [show (decide (e.1 = k')) = false by simp [he]]
      exact ih

theorem Level_kwargs_cases (kvs : List (String × Json)) :
    Level_kwargs kvs = .error .typeError ∨ ∃ b, Level_kwargs kvs = .ok b := by
  unfold Level_kwargs
  split
  · split
    · exact Or.inr ⟨_, rfl⟩
    · exact Or.inl rfl
  · exact Or.inl rfl

theorem mapM_levels_error (f : Json → Except PyErr LevelM)
    (hall : ∀ y, f y = .error .typeError ∨ ∃ b, f y = .ok b) :
    ∀ (xs : List Json), (∃ x ∈ xs, f x = .error .typeError) →
      xs.mapM f = .error .typeError := by
  intro xs
  induction xs with
  | nil => rintro ⟨x, hx, _⟩; simp at hx
  | cons y ys ih =>
    rintro ⟨x, hx, hfx⟩
    rw [List.mapM_cons]
    rcases hall y with hy | ⟨b, hy⟩
    · rw [hy]
      rfl
    · rw [hy]
      have hxy : x ∈ ys := by
        rcases List.mem_cons.mp hx with h | h
        · subst h
          rw [hfx] at hy
          exact absurd hy (by simp)
        · exact h
      have := ih ⟨x, hxy, hfx⟩
      rw [this]
      rfl

theorem levelsFrom_arr_fails (xs : List Json) (lkvs : List (String × Json))
    (hx : Json.obj lkvs ∈ xs) (hbad : ∃ e ∈ lkvs, ¬ e.1 ∈ levelKeys) :
    levelsFrom (.arr xs) = .error .typeError := by
  have hfail : Level_kwargs lkvs = .error .typeError := by
    rw [Level_kwargs, if_neg]
    intro hall
    obtain ⟨e, he, hk⟩ := hbad
    have := List.all_eq_true.mp hall e he
    simp at this
    exact hk this
  unfold levelsFrom
  refine mapM_levels_error _ ?_ xs ⟨Json.obj lkvs, hx, hfail⟩
  intro y
  cases y with
  | obj kvs => exact Level_kwargs_cases kvs
  | null => exact Or.inl rfl
  | bool b => exact Or.inl rfl
  | num n => exact Or.inl rfl
  | str s => exact Or.inl rfl
  | arr a => exact Or.inl rfl

end Stella

namespace Stella

theorem axisFrom_cases (v : Json) :
    axisFrom v = .error .typeError ∨ ∃ a, axisFrom v = .ok a := by
  cases v with
  | obj kvs =>
    show Axis_kwargs kvs = .error .typeError ∨ ∃ a, Axis_kwargs kvs = .ok a
    unfold Axis_kwargs
    split
    · exact Or.inr ⟨_, rfl⟩
    · exact Or.inl rfl
  | null => exact Or.inl rfl
  | bool b => exact Or.inl rfl
  | num n => exact Or.inl rfl
  | str s => exact Or.inl rfl
  | arr a => exact Or.inl rfl

theorem mapM_levels_cases (f : Json → Except PyErr LevelM)
    (hall : ∀ y, f y = .error .typeError ∨ ∃ b, f y = .ok b) :
    ∀ xs : List Json, xs.mapM f = .error .typeError ∨ ∃ ls, xs.mapM f = .ok ls := by
  intro xs
  induction xs with
  | nil => exact Or.inr ⟨[], rfl⟩
  | cons y ys ih =>
    rw [List.mapM_cons]
    rcases hall y with hy | ⟨b, hy⟩
    · rw [hy]
      exact Or.inl rfl
    · rw [hy]
      rcases ih with hys | ⟨ls, hys⟩
      · rw [hys]
        exact Or.inl rfl
      · rw [hys]
        exact Or.inr ⟨b :: ls, rfl⟩

theorem levelsFrom_cases (v : Json) :
    levelsFrom v = .error .typeError ∨ ∃ ls, levelsFrom v = .ok ls := by
  cases v with
  | arr xs =>
    unfold levelsFrom
    refine mapM_levels_cases _ ?_ xs
    intro y
    cases y with
    | obj kvs => exact Level_kwargs_cases kvs
    | null => exact Or.inl rfl
    | bool b => exact Or.inl rfl
    | num n => exact Or.inl rfl
    | str s => exact Or.inl rfl
    | arr a => exact Or.inl rfl
  | str s =>
    show (if s = "" then Except.ok [] else Except.error PyErr.typeError) =
        Except.error PyErr.typeError ∨
      ∃ ls, (if s = "" then Except.ok [] else Except.error PyErr.typeError) =
        Except.ok ls
    by_cases hs : s = ""
    · rw [if_pos hs]
      exact Or.inr ⟨[], rfl⟩
    · rw [if_neg hs]
      exact Or.inl rfl
  | obj kvs =>
    show (if kvs.isEmpty = true then Except.ok [] else Except.error PyErr.typeError) =
        Except.error PyErr.typeError ∨
      ∃ ls, (if kvs.isEmpty = true then Except.ok [] else Except.error PyErr.typeError) =
        Except.ok ls
    by_cases hk : kvs.isEmpty = true
    · rw [if_pos hk]
      exact Or.inr ⟨[], rfl⟩
    · rw [if_neg hk]
      exact Or.inl rfl
  | null => exact Or.inl rfl
  | bool b => exact Or.inl rfl
  | num n => exact Or.inl rfl

theorem Generator_kwargs_cases (kvs : List (String × Json)) :
    Generator_kwargs kvs = .error .typeError ∨
      ∃ g, Generator_kwargs kvs = .ok g := by
  unfold Generator_kwargs
  split
  · exact Or.inr ⟨_, rfl⟩
  · exact Or.inl rfl

theorem generatorFrom_cases (ov : Option Json) :
    generatorFrom ov = .error .typeError ∨ ∃ g, generatorFrom ov = .ok g := by
  cases ov with
  | none => exact Or.inr ⟨none, rfl⟩
  | some v =>
    simp only [generatorFrom]
    by_cases ht : jTruthy v = true
    · rw [if_pos ht]
      cases v with
      | obj kvs =>
        show (Generator_kwargs kvs).map some = Except.error PyErr.typeError ∨
          ∃ g, (Generator_kwargs kvs).map some = Except.ok g
        rcases Generator_kwargs_cases kvs with h | ⟨g, h⟩
        · rw [h]
          exact Or.inl rfl
        · rw [h]
          exact Or.inr ⟨some g, rfl⟩
      | null => exact Or.inl rfl
      | bool b => exact Or.inl rfl
      | num n => exact Or.inl rfl
      | str s => exact Or.inl rfl
      | arr a => exact Or.inl rfl
    · rw [if_neg ht]
      exact Or.inr ⟨none, rfl⟩

theorem World_kwargs_fails (wkvs : List (String × Json))
    (hbad : ∃ e ∈ wkvs, ¬ e.1 ∈ worldKeys) :
    World_kwargs wkvs = .error .typeError := by
  rw [World_kwargs, if_neg]
  intro hall
  obtain ⟨e, he, hk⟩ := hbad
  have := List.all_eq_true.mp hall e he
  simp at this
  exact hk this

/-- **C4 counterexample**: an unknown key nested inside `axis` makes
`from_dict` raise `TypeError` (Python: `Axis(**{'up': 'Y', 'tilt': 1})`),
while the same input without the unknown key parses fine — so the parse
failure is caused exactly by the extra unknown field, contradicting the
claim that unknown fields anywhere are ignored. -/
theorem C4_nested_unknown_field_throws :
    Manifest_from_dict "t"
        [("axis", Json.obj [("up", Json.str "Y"), ("tilt", Json.num 1)])] =
      .error .typeError ∧
    Manifest_from_dict "t" [("axis", Json.obj [("up", Json.str "Y")])] =
      .ok ⟨.str "stella.world", .num 1, .str "t", .str "meters",
           ⟨.str "Y", .str "-Z", .str "right"⟩, [], none, none, .obj []⟩ :=
  ⟨rfl, rfl⟩

/-- **C4 amended**: unknown fields at the *top level* of the manifest
object are ignored (parsing is unchanged by adding one), but an unknown
key inside a nested object — `axis`, a `levels` entry, `generator`, or
`world` — raises `TypeError`. -/
theorem C4_forward_compat_amended :
    (∀ (now : String) (d : List (String × Json)) (k : String) (v : Json),
        ¬ k ∈ manifestTopKeys →
        Manifest_from_dict now (d ++ [(k, v)]) = Manifest_from_dict now d) ∧
    (∀ (now : String) (d : List (String × Json)) (akvs : List (String × Json)),
        jget d "axis" = some (.obj akvs) →
        (∃ e ∈ akvs, ¬ e.1 ∈ axisKeys) →
        Manifest_from_dict now d = .error .typeError) ∧
    (∀ (now : String) (d : List (String × Json)) (xs : List Json)
        (lkvs : List (String × Json)),
        jget d "levels" = some (.arr xs) → Json.obj lkvs ∈ xs →
        (∃ e ∈ lkvs, ¬ e.1 ∈ levelKeys) →
        Manifest_from_dict now d = .error .typeError) ∧
    (∀ (now : String) (d : List (String × Json)) (gkvs : List (String × Json)),
        jget d "generator" = some (.obj gkvs) →
        (∃ e ∈ gkvs, ¬ e.1 ∈ generatorKeys) →
        Manifest_from_dict now d = .error .typeError) ∧
    (∀ (now : String) (d : List (String × Json)) (wkvs : List (String × Json)),
        jget d "world" = some (.obj wkvs) →
        (∃ e ∈ wkvs, ¬ e.1 ∈ worldKeys) →
        Manifest_from_dict now d = .error .typeError) := by
  refine ⟨?_, ?_, ?_, ?_, ?_⟩
  · intro now d k v hk
    have hne : ∀ s, s ∈ manifestTopKeys → jget (d ++ [(k, v)]) s = jget d s :=
      fun s hs => jget_append_ne d k v s (fun h => hk (h ▸ hs))
    unfold Manifest_from_dict
    rw [hne "axis" (by decide), hne "levels" (by decide),
      hne "generator" (by decide), hne "world" (by decide),
      hne "format" (by decide), hne "version" (by decide),
      hne "created_utc" (by decide), hne "units" (by decide),
      hne "assets" (by decide)]
  · intro now d akvs hax hbad
    have hfail : Axis_kwargs akvs = .error .typeError := by
      rw [Axis_kwargs, if_neg]
      intro hall
      obtain ⟨e, he, hk⟩ := hbad
      have := List.all_eq_true.mp hall e he
      simp at this
      exact hk this
    unfold Manifest_from_dict
    rw [hax]
    show Except.bind (axisFrom (Json.obj akvs)) _ = _
    rw [show axisFrom (Json.obj akvs) = Axis_kwargs akvs from rfl, hfail]
    rfl
  · intro now d xs lkvs hlv hx hbad
    have hfail := levelsFrom_arr_fails xs lkvs hx hbad
    unfold Manifest_from_dict
    rcases axisFrom_cases ((jget d "axis").getD (.obj [])) with ha | ⟨a, ha⟩
    · show Except.bind (axisFrom ((jget d "axis").getD (.obj []))) _ = _
      rw [ha]
      rfl
    · show Except.bind (axisFrom ((jget d "axis").getD (.obj []))) _ = _
      rw [ha]
      show Except.bind (levelsFrom ((jget d "levels").getD (.arr []))) _ = _
      rw [hlv]
      show Except.bind (levelsFrom (Json.arr xs)) _ = _
      rw [hfail]
      rfl
  · intro now d gkvs hg hbad
    have hnemp : gkvs ≠ [] := by
      obtain ⟨e, he, _⟩ := hbad
      intro h0
      rw [h0] at he
      simp at he
    have hfail : Generator_kwargs gkvs = .error .typeError := by
      rw [Generator_kwargs, if_neg]
      intro hall
      obtain ⟨e, he, hk⟩ := hbad
      have := List.all_eq_true.mp hall e he
      simp at this
      exact hk this
    have htr : jTruthy (.obj gkvs) = true := by
      cases gkvs with
      | nil => exact absurd rfl hnemp
      | cons e t => rfl
    have hgstep : generatorFrom (jget d "generator") = .error .typeError := by
      rw [hg]
      simp only [generatorFrom]
      rw [if_pos htr]
      show (Generator_kwargs gkvs).map some = _
      rw [hfail]
      rfl
    unfold Manifest_from_dict
    rcases axisFrom_cases ((jget d "axis").getD (.obj [])) with ha | ⟨a, ha⟩
    · show Except.bind (axisFrom ((jget d "axis").getD (.obj []))) _ = _
      rw [ha]
      rfl
    · show Except.bind (axisFrom ((jget d "axis").getD (.obj []))) _ = _
      rw [ha]
      show Except.bind (levelsFrom ((jget d "levels").getD (.arr []))) _ = _
      rcases levelsFrom_cases ((jget d "levels").getD (.arr [])) with hl | ⟨ls, hl⟩
      · rw [hl]
        rfl
      · rw [hl]
        show Except.bind (generatorFrom (jget d "generator")) _ = _
        rw [hgstep]
        rfl
  · intro now d wkvs hw hbad
    have hnemp : wkvs ≠ [] := by
      obtain ⟨e, he, _⟩ := hbad
      intro h0
      rw [h0] at he
      simp at he
    have htr : jTruthy (.obj wkvs) = true := by
      cases wkvs with
      | nil => exact absurd rfl hnemp
      | cons e t => rfl
    have hwstep : worldFrom (jget d "world") = .error .typeError := by
      rw [hw]
      simp only [worldFrom]
      rw [if_pos htr]
      show (World_kwargs wkvs).map some = _
      rw [World_kwargs_fails wkvs hbad]
      rfl
    unfold Manifest_from_dict
    rcases axisFrom_cases ((jget d "axis").getD (.obj [])) with ha | ⟨a, ha⟩
    · show Except.bind (axisFrom ((jget d "axis").getD (.obj []))) _ = _
      rw [ha]
      rfl
    · show Except.bind (axisFrom ((jget d "axis").getD (.obj []))) _ = _
      rw [ha]
      show Except.bind (levelsFrom ((jget d "levels").getD (.arr []))) _ = _
      rcases levelsFrom_cases ((jget d "levels").getD (.arr [])) with hl | ⟨ls, hl⟩
      · rw [hl]
        rfl
      · rw [hl]
        show Except.bind (generatorFrom (jget d "generator")) _ = _
        rcases generatorFrom_cases (jget d "generator") with hgn | ⟨g, hgn⟩
        · rw [hgn]
          rfl
        · rw [hgn]
          show Except.bind (worldFrom (jget d "world")) _ = _
          rw [hwstep]
          rfl

/-- **C4 amended witness**: the five behaviours at concrete inputs. -/
theorem C4_forward_compat_amended_witness :
    Manifest_from_dict "t" [("zzz", Json.null)] = Manifest_from_dict "t" [] ∧
    Manifest_from_dict "t" [("axis", Json.obj [("tilt", Json.num 1)])] =
      .error .typeError ∧
    Manifest_from_dict "t" [("levels", Json.arr [Json.obj [("extra", Json.null)]])] =
      .error .typeError ∧
    Manifest_from_dict "t" [("generator", Json.obj [("extra", Json.null)])] =
      .error .typeError ∧
    Manifest_from_dict "t" [("world", Json.obj [("extra", Json.null)])] =
      .error .typeError :=
  ⟨C4_forward_compat_amended.1 "t" [] "zzz" Json.null (by decide),
   C4_forward_compat_amended.2.1 "t" _ [("tilt", Json.num 1)] rfl
     ⟨("tilt", Json.num 1), by simp, by decide⟩,
   C4_forward_compat_amended.2.2.1 "t" _ [Json.obj [("extra", Json.null)]]
     [("extra", Json.null)] rfl (by simp)
     ⟨("extra", Json.null), by simp, by decide⟩,
   C4_forward_compat_amended.2.2.2.1 "t" _ [("extra", Json.null)] rfl
     ⟨("extra", Json.null), by simp, by decide⟩,
   C4_forward_compat_amended.2.2.2.2 "t" _ [("extra", Json.null)] rfl
     ⟨("extra", Json.null), by simp, by decide⟩⟩

end Stella

namespace Stella

/-! ## Order lemmas for `bytesLe` and `itemLe` -/

theorem bytesLe_refl (a : Bytes) : bytesLe a a = true := by
  induction a with
  | nil => rfl
  | cons x a ih => simp [bytesLe, ih]

theorem bytesLe_total (a : Bytes) : ∀ b, bytesLe a b = true ∨ bytesLe b a = true := by
  induction a with
  | nil => intro b; exact Or.inl rfl
  | cons x a ih =>
    intro b
    cases b with
    | nil => exact Or.inr rfl
    | cons y b =>
      by_cases hxy : x < y
      · left; simp [bytesLe, hxy]
      · by_cases hyx : y < x
        · right; simp [bytesLe, hyx, hxy]
        · have hxy' : x = y := by omega
          subst hxy'
          rcases ih b with h | h
          · left; simp [bytesLe, h]
          · right; simp [bytesLe, h]

theorem bytesLe_trans (a : Bytes) :
    ∀ b c, bytesLe a b = true → bytesLe b c = true → bytesLe a c = true := by
  induction a with
  | nil => intro b c _ _; rfl
  | cons x a ih =>
    intro b c hab hbc
    cases b with
    | nil => simp [bytesLe] at hab
    | cons y b =>
      cases c with
      | nil => simp [bytesLe] at hbc
      | cons z c =>
        simp only [bytesLe] at hab hbc ⊢
        by_cases hxy : x < y
        · by_cases hyz : y < z
          · simp [show x < z by omega]
          · by_cases hzy : z < y
            · simp [bytesLe] at hbc
              omega
            · have : y = z := by omega
              subst this
              simp [hxy]
        · by_cases hyx : y < x
          · simp [hxy, hyx] at hab
          · have hxy' : x = y := by omega
            subst hxy'
            simp [lt_irrefl] at hab
            by_cases hyz : x < z
            · simp [hyz]
            · by_cases hzy : z < x
              · simp [hyz, hzy] at hbc
              · have : x = z := by omega
                subst this
                simp [lt_irrefl] at hbc ⊢
                exact ih b c hab hbc

theorem bytesLe_antisymm (a : Bytes) :
    ∀ b, bytesLe a b = true → bytesLe b a = true → a = b := by
  induction a with
  | nil =>
    intro b _ hba
    cases b with
    | nil => rfl
    | cons y b => simp [bytesLe] at hba
  | cons x a ih =>
    intro b hab hba
    cases b with
    | nil => simp [bytesLe] at hab
    | cons y b =>
      simp only [bytesLe] at hab hba
      by_cases hxy : x < y
      · have h1 : ¬ y < x := by omega
        simp [bytesLe, h1, hxy] at hba
      · by_cases hyx : y < x
        · simp [hxy, hyx] at hab
        · have hxy' : x = y := by omega
          subst hxy'
          simp [lt_irrefl] at hab hba
          rw [ih b hab hba]

instance : IsTotal Bytes pathLe := ⟨fun a b => bytesLe_total a b⟩

instance : IsTrans Bytes pathLe := ⟨fun a b c => bytesLe_trans a b c⟩

instance : IsAntisymm Bytes pathLe := ⟨fun a b => bytesLe_antisymm a b⟩

theorem itemLe_total (x y : Bytes × Bytes) : itemLe x y ∨ itemLe y x := by
  unfold itemLe
  by_cases hf : x.1 = y.1
  · rw [if_pos hf, if_pos hf.symm]
    exact bytesLe_total x.2 y.2
  · rw [if_neg hf, if_neg (fun h => hf h.symm)]
    exact bytesLe_total x.1 y.1

theorem itemLe_trans (x y z : Bytes × Bytes) (hxy : itemLe x y) (hyz : itemLe y z) :
    itemLe x z := by
  unfold itemLe at hxy hyz ⊢
  by_cases h1 : x.1 = y.1 <;> by_cases h2 : y.1 = z.1
  · rw [if_pos h1] at hxy
    rw [if_pos h2] at hyz
    rw [if_pos (h1.trans h2)]
    exact bytesLe_trans x.2 y.2 z.2 hxy hyz
  · rw [if_pos h1] at hxy
    rw [if_neg h2] at hyz
    rw [if_neg (fun h => h2 (h1.symm.trans h)), h1]
    exact hyz
  · rw [if_neg h1] at hxy
    rw [if_pos h2] at hyz
    rw [if_neg (fun h => h1 (h.trans h2.symm)), ← h2]
    exact hxy
  · rw [if_neg h1] at hxy
    rw [if_neg h2] at hyz
    by_cases h3 : x.1 = z.1
    · exact absurd (bytesLe_antisymm x.1 y.1 hxy (h3 ▸ hyz)) h1
    · rw [if_neg h3]
      exact bytesLe_trans x.1 y.1 z.1 hxy hyz

instance : IsTotal (Bytes × Bytes) itemLe := ⟨itemLe_total⟩

instance : IsTrans (Bytes × Bytes) itemLe := ⟨itemLe_trans⟩

end Stella

namespace Stella

theorem erase_eq_filter_bytes (l : List Bytes) (a : Bytes) (h : l.Nodup) :
    l.erase a = l.filter (fun p => p != a) := by
  induction l with
  | nil => rfl
  | cons b l ih =>
    rw [List.erase_cons]
    rcases List.nodup_cons.mp h with ⟨hb, hl⟩
    by_cases hba : b = a
    · rw [if_pos (by simp [hba])]
      subst hba
      have : ∀ x ∈ l, (x != b) = true := fun x hx => by
        simp
        exact fun hh => hb (hh ▸ hx)
      rw [List.filter_cons_of_neg (by simp), List.filter_eq_self.mpr this]
    · rw [if_neg (by simp [hba]), List.filter_cons_of_pos (by simp [hba]), ih hl]

/-- The archive entries between `manifest.json` and `checksums.sha256`. -/
def packMiddle (h : Bytes → Bytes) (manifestBytes : Bytes)
    (fileMap : List (Bytes × Bytes)) (includeChecksums : Bool) : List Bytes :=
  ((List.insertionSort pathLe
      ((packAllFiles h manifestBytes fileMap includeChecksums).map
        Prod.fst)).erase manifest_json).erase checksums_path

/-- **C5**: deterministic member ordering, with checksums included.
(1) The entry path sequence is `manifest.json`, then the middle block,
then `checksums.sha256` last.  (2) The middle block is sorted
lexicographically, and (3) is a permutation of all archive keys except
the two special entries.  (4) The checksum manifest's own lines are in
lexicographic path order.  (5) Packing twice gives identical output (the
model is a pure function of its inputs). -/
theorem C5_deterministic_ordering (h : Bytes → Bytes) (manifestBytes : Bytes)
    (fileMap : List (Bytes × Bytes)) :
    ((pack_stella h manifestBytes fileMap true).map Prod.fst =
      manifest_json :: packMiddle h manifestBytes fileMap true ++
        [checksums_path]) ∧
    List.Sorted pathLe (packMiddle h manifestBytes fileMap true) ∧
    (packMiddle h manifestBytes fileMap true).Perm
      ((((packAllFiles h manifestBytes fileMap true).map Prod.fst).filter
          (fun p => p != manifest_json)).filter
        (fun p => p != checksums_path)) ∧
    List.Sorted pathLe
      ((packChecksumItems h (packAllFiles0 manifestBytes fileMap)).map
        Prod.fst) ∧
    pack_stella h manifestBytes fileMap true =
      pack_stella h manifestBytes fileMap true := by
  have hmjck : manifest_json ≠ checksums_path := by decide
  have hnd0 : ((packAllFiles0 manifestBytes fileMap).map Prod.fst).Nodup :=
    nodup_keys_dictUpdate fileMap _ (by simp)
  have hafeq : packAllFiles h manifestBytes fileMap true =
      dictSet (packAllFiles0 manifestBytes fileMap) checksums_path
        (joinNl (packChecksumLines h (packAllFiles0 manifestBytes fileMap))) := rfl
  have hndaf : ((packAllFiles h manifestBytes fileMap true).map Prod.fst).Nodup := by
    rw [hafeq]
    exact nodup_keys_dictSet _ _ _ hnd0
  have hmjaf : manifest_json ∈
      (packAllFiles h manifestBytes fileMap true).map Prod.fst := by
    rw [hafeq, mem_keys_dictSet]
    left
    rw [show packAllFiles0 manifestBytes fileMap =
      dictUpdate [(manifest_json, manifestBytes)] fileMap from rfl,
      mem_keys_dictUpdate]
    left
    simp
  have hckaf : checksums_path ∈
      (packAllFiles h manifestBytes fileMap true).map Prod.fst := by
    rw [hafeq, mem_keys_dictSet]
    right
    rfl
  have hmjsp : manifest_json ∈ List.insertionSort pathLe
      ((packAllFiles h manifestBytes fileMap true).map Prod.fst) :=
    ((List.perm_insertionSort pathLe _).mem_iff).mpr hmjaf
  have hcksp : checksums_path ∈ List.insertionSort pathLe
      ((packAllFiles h manifestBytes fileMap true).map Prod.fst) :=
    ((List.perm_insertionSort pathLe _).mem_iff).mpr hckaf
  have hcks2 : checksums_path ∈ manifest_json ::
      (List.insertionSort pathLe
        ((packAllFiles h manifestBytes fileMap true).map Prod.fst)).erase
        manifest_json := by
    right
    exact (List.mem_erase_of_ne (fun hh => hmjck hh.symm)).mpr hcksp
  have hpaths : packPaths h manifestBytes fileMap true =
      manifest_json :: packMiddle h manifestBytes fileMap true ++
        [checksums_path] := by
    simp only [packPaths]
    rw [if_pos hmjsp, if_pos hcks2]
    rw [List.erase_cons_tail (by simp [hmjck])]
    rfl
  refine ⟨?_, ?_, ?_, ?_, rfl⟩
  · rw [pack_stella, List.map_map]
    rw [show (Prod.fst ∘ fun p =>
        (p, dlookup (packAllFiles h manifestBytes fileMap true) p)) = id from rfl]
    rw [List.map_id, hpaths]
  · have hs : List.Sorted pathLe (List.insertionSort pathLe
        ((packAllFiles h manifestBytes fileMap true).map Prod.fst)) :=
      List.sorted_insertionSort pathLe _
    refine hs.sublist ?_
    exact ((List.erase_sublist _ _).trans (List.erase_sublist _ _))
  · have hndsp : (List.insertionSort pathLe
        ((packAllFiles h manifestBytes fileMap true).map Prod.fst)).Nodup :=
      ((List.perm_insertionSort pathLe _).nodup_iff).mpr hndaf
    unfold packMiddle
    rw [erase_eq_filter_bytes _ manifest_json hndsp,
      erase_eq_filter_bytes _ checksums_path (hndsp.filter _)]
    exact ((List.perm_insertionSort pathLe _).filter _).filter _
  · have hs : List.Sorted itemLe
        (packChecksumItems h (packAllFiles0 manifestBytes fileMap)) :=
      List.sorted_insertionSort itemLe _
    rw [List.Sorted, List.pairwise_map]
    refine hs.imp ?_
    intro a b hab
    unfold itemLe at hab
    unfold pathLe
    by_cases hf : a.1 = b.1
    · rw [hf]
      exact bytesLe_refl b.1
    · rw [if_neg hf] at hab
      exact hab

/-- **C5 witness**: evaluated on a concrete two-payload map. -/
theorem C5_deterministic_ordering_witness :
    (pack_stella (fun _ => [104]) [1]
        [(asciiBytes "b.bin", [2]), (asciiBytes "a.bin", [3])] true).map
      Prod.fst =
      manifest_json :: (asciiBytes "a.bin" :: asciiBytes "b.bin" :: []) ++
        [checksums_path] :=
  ((C5_deterministic_ordering (fun _ => [104]) [1]
    [(asciiBytes "b.bin", [2]), (asciiBytes "a.bin", [3])]).1).trans (by decide)

end Stella

namespace Stella

/-! ## `validate_stella` (package.py lines 266-341)

The model covers archives that open correctly (the file-not-found and
bad-ZIP early returns are file-system concerns outside the byte-level
model); `json.loads` enters as an abstract decoder
`jdec : Bytes → Option (List (String × Json))` returning the parsed
top-level object, `none` on a `JSONDecodeError`.  Uncaught Python
exceptions (`TypeError`/`AttributeError` on malformed `levels` values)
are the `Except.error` results. -/

/-- Python `repr()` of a JSON value (used inside containers). -/
def pyRepr : Json → String
  | .null => "None"
  | .bool true => "True"
  | .bool false => "False"
  | .num n => toString n
  | .str s => "\x27" ++ s ++ "\x27"
  | .arr xs => "[" ++ String.intercalate ", "
      (xs.attach.map fun x => pyRepr x.1) ++ "]"
  | .obj kvs => "\x7b" ++ String.intercalate ", "
      (kvs.attach.map fun e => "\x27" ++ e.1.1 ++ "\x27: " ++ pyRepr e.1.2) ++ "\x7d"
decreasing_by
  · have := List.sizeOf_lt_of_mem x.2
    simp
    omega
  · rcases e with ⟨⟨a, b⟩, hmem⟩
    have := List.sizeOf_lt_of_mem hmem
    simp at this ⊢
    omega

/-- Python `str()` of a JSON value, as interpolated by the f-string
`f"levels/{level_id}/"`: scalars render plainly, containers via `repr`. -/
def jsonFStr : Json → String
  | .null => "None"
  | .bool true => "True"
  | .bool false => "False"
  | .num n => toString n
  | .str s => s
  | .arr xs => pyRepr (.arr xs)
  | .obj kvs => pyRepr (.obj kvs)

/-- One iteration of the per-level loop: the missing-file errors for a
level entry, or the uncaught `AttributeError` when the entry is not a
dict (`level.get` on a non-dict). -/
def levelRequiredErrs (names : List Bytes) (level : Json) :
    Except PyErr (List PkgErr) :=
  match level with
  | .obj lkvs =>
    let levelId := (jget lkvs "id").getD (.str "unknown")
    let dir := asciiBytes "levels/" ++ asciiBytes (jsonFStr levelId) ++ asciiBytes "/"
    .ok (([dir ++ asciiBytes "level.json", dir ++ asciiBytes "render.glb",
           dir ++ asciiBytes "collision.rlevox"]).filterMap fun req =>
      if req ∈ names then none else some (.missingRequiredFile req))
  | _ => .error .attributeError

def validate_stella (h : Bytes → Bytes)
    (jdec : Bytes → Option (List (String × Json)))
    (archive : List (Bytes × Bytes)) : Except PyErr (Bool × List PkgErr) :=
  let names := archive.map Prod.fst
  let structErrs : Except PyErr (List PkgErr) :=
    if ¬ manifest_json ∈ names then .ok [.missingManifestJson]
    else
      match jdec (dlookup archive manifest_json) with
      | none => .ok [.invalidJsonManifest]
      | some md =>
        match jget md "levels" with
        | none => .ok [.missingLevelsField]
        | some v =>
          if ¬ jTruthy v then .ok [.emptyLevelsArray]
          else
            match v with
            | .arr lvls => (lvls.mapM (levelRequiredErrs names)).map List.flatten
            | .str _ => .error .attributeError
            | .obj _ => .error .attributeError
            | _ => .error .typeError
  match structErrs with
  | .error e => .error e
  | .ok errs =>
    let errs2 :=
      if checksums_path ∈ names then
        if ¬ (verify_stella_checksums h archive).1 then
          errs ++ (verify_stella_checksums h archive).2
        else errs
      else errs
    .ok (errs2.isEmpty, errs2)

/-- `make_manifest()` with all defaults, serialized by `Manifest.to_dict`
(manifest.py lines 69-89 and 282-312): single level `"0"`, default axis,
generator with `git_commit = None` dropped, default world, empty `assets`
omitted.  `created` stands for the construction timestamp. -/
def makeManifestDict (created : String) : List (String × Json) :=
  [("format", .str "stella.world"),
   ("version", .num 1),
   ("created_utc", .str created),
   ("units", .str "meters"),
   ("axis", .obj [("up", .str "Y"), ("forward", .str "-Z"),
                  ("handedness", .str "right")]),
   ("levels", .arr [.obj [("id", .str "0"),
                          ("path", .str "levels/0/level.json"),
                          ("name", .str "Floor 0")]]),
   ("generator", .obj [("name", .str "stella-cli"),
                       ("version", .str "0.1.0")]),
   ("world", .obj [("title", .str "Untitled World"), ("tags", .arr []),
                   ("privacy", .obj [("contains_source_media", .bool false)])])]

end Stella

namespace Stella

theorem strip_eq_self (l : Bytes)
    (hh : ∀ a, l.head? = some a → isWsB a = false)
    (hl : ∀ a, l.reverse.head? = some a → isWsB a = false) : strip l = l := by
  unfold strip
  have h1 : l.dropWhile isWsB = l := by
    cases l with
    | nil => rfl
    | cons x t =>
      rw [List.dropWhile_cons, if_neg (by simp [hh x rfl])]
  rw [h1]
  have h2 : l.reverse.dropWhile isWsB = l.reverse := by
    cases hr : l.reverse with
    | nil => rfl
    | cons y t =>
      rw [List.dropWhile_cons, if_neg (by simp [hl y (by rw [hr]; rfl)])]
  rw [h2, List.reverse_reverse]

theorem splitNl_no_nl (l : Bytes) (hl : ∀ b ∈ l, ¬ b = 10) : splitNl l = [l] := by
  induction l with
  | nil => rfl
  | cons b rest ih =>
    rw [splitNl, if_neg (hl b (by simp)), ih (fun x hx => hl x (by simp [hx]))]

theorem splitNl_append (a b : Bytes) (ha : ∀ x ∈ a, ¬ x = 10) :
    splitNl (a ++ 10 :: b) = a :: splitNl b := by
  induction a with
  | nil =>
    rw [List.nil_append, splitNl, if_pos rfl]
  | cons c a ih =>
    rw [List.cons_append, splitNl, if_neg (ha c (by simp)),
      ih (fun x hx => ha x (by simp [hx]))]

theorem joinNl_pair (a b : Bytes) : joinNl [a, b] = a ++ 10 :: b := by
  simp [joinNl, List.intercalate, List.intersperse]

end Stella

namespace Stella

theorem verifyLine_parsed (h : Bytes → Bytes) (archive : List (Bytes × Bytes))
    (digest path : Bytes) (hd : ∀ b ∈ digest, isWsB b = false) :
    verifyLine h archive (digest ++ 32 :: 32 :: path) =
      (if path = checksums_path then none
       else if ¬ path ∈ archive.map Prod.fst then some (.missingFile path)
       else if h (dlookup archive path) ≠ digest then
         some (.checksumMismatch path)
       else none) := by
  rw [verifyLine, if_neg (by simp), findSep_clean digest path hd]

/-- The checksum manifest written by `pack_stella` for the C7 scenario
verifies cleanly. -/
theorem verify_packed_triple (h : Bytes → Bytes) (mtext lvltext : Bytes)
    (hclean : ∀ s, h s ≠ [] ∧ ∀ b ∈ h s, isWsB b = false) :
    verify_stella_checksums h
      [(manifest_json, mtext),
       (asciiBytes "levels/0/level.json", lvltext),
       (checksums_path,
         joinNl [h lvltext ++ [32, 32] ++ asciiBytes "levels/0/level.json",
                 h mtext ++ [32, 32] ++ manifest_json])] = (true, []) := by
  obtain ⟨hne1, hcl1⟩ := hclean lvltext
  obtain ⟨hne2, hcl2⟩ := hclean mtext
  have h10 : ∀ (s : Bytes), (∀ b ∈ s, isWsB b = false) → ∀ x ∈ s, ¬ x = 10 := by
    intro s hs x hx hx10
    have := hs x hx
    rw [hx10] at this
    simp [isWsB] at this
  have hmemlvl : asciiBytes "levels/0/level.json" ∈
      ([(manifest_json, mtext),
       (asciiBytes "levels/0/level.json", lvltext),
       (checksums_path,
         (h lvltext ++ [32, 32] ++ asciiBytes "levels/0/level.json") ++ 10 :: (h mtext ++ [32, 32] ++ manifest_json))]).map Prod.fst := by
    simp
  have hmemmj : manifest_json ∈
      ([(manifest_json, mtext),
       (asciiBytes "levels/0/level.json", lvltext),
       (checksums_path,
         (h lvltext ++ [32, 32] ++ asciiBytes "levels/0/level.json") ++ 10 :: (h mtext ++ [32, 32] ++ manifest_json))]).map Prod.fst := by
    simp
  have hl1 : verifyLine h [(manifest_json, mtext),
       (asciiBytes "levels/0/level.json", lvltext),
       (checksums_path,
         (h lvltext ++ [32, 32] ++ asciiBytes "levels/0/level.json") ++ 10 :: (h mtext ++ [32, 32] ++ manifest_json))]
      (h lvltext ++ [32, 32] ++ asciiBytes "levels/0/level.json") = none := by
    have h0 : verifyLine h [(manifest_json, mtext),
       (asciiBytes "levels/0/level.json", lvltext),
       (checksums_path,
         (h lvltext ++ [32, 32] ++ asciiBytes "levels/0/level.json") ++ 10 :: (h mtext ++ [32, 32] ++ manifest_json))]
        (h lvltext ++ [32, 32] ++ asciiBytes "levels/0/level.json") =
        verifyLine h [(manifest_json, mtext),
       (asciiBytes "levels/0/level.json", lvltext),
       (checksums_path,
         (h lvltext ++ [32, 32] ++ asciiBytes "levels/0/level.json") ++ 10 :: (h mtext ++ [32, 32] ++ manifest_json))]
          (h lvltext ++ 32 :: 32 :: asciiBytes "levels/0/level.json") :=
      congrArg _ (by simp)
    rw [h0,
      verifyLine_parsed h _ (h lvltext) (asciiBytes "levels/0/level.json") hcl1,
      if_neg (by decide : ¬ (asciiBytes "levels/0/level.json" = checksums_path)),
      if_neg (by simp [hmemlvl]),
      show dlookup [(manifest_json, mtext),
       (asciiBytes "levels/0/level.json", lvltext),
       (checksums_path,
         (h lvltext ++ [32, 32] ++ asciiBytes "levels/0/level.json") ++ 10 :: (h mtext ++ [32, 32] ++ manifest_json))] (asciiBytes "levels/0/level.json") = lvltext from rfl,
      if_neg (by simp)]
  have hl2 : verifyLine h [(manifest_json, mtext),
       (asciiBytes "levels/0/level.json", lvltext),
       (checksums_path,
         (h lvltext ++ [32, 32] ++ asciiBytes "levels/0/level.json") ++ 10 :: (h mtext ++ [32, 32] ++ manifest_json))]
      (h mtext ++ [32, 32] ++ manifest_json) = none := by
    have h0 : verifyLine h [(manifest_json, mtext),
       (asciiBytes "levels/0/level.json", lvltext),
       (checksums_path,
         (h lvltext ++ [32, 32] ++ asciiBytes "levels/0/level.json") ++ 10 :: (h mtext ++ [32, 32] ++ manifest_json))]
        (h mtext ++ [32, 32] ++ manifest_json) =
        verifyLine h [(manifest_json, mtext),
       (asciiBytes "levels/0/level.json", lvltext),
       (checksums_path,
         (h lvltext ++ [32, 32] ++ asciiBytes "levels/0/level.json") ++ 10 :: (h mtext ++ [32, 32] ++ manifest_json))]
          (h mtext ++ 32 :: 32 :: manifest_json) :=
      congrArg _ (by simp)
    rw [h0,
      verifyLine_parsed h _ (h mtext) manifest_json hcl2,
      if_neg (by decide : ¬ (manifest_json = checksums_path)),
      if_neg (by simp [hmemmj]),
      show dlookup [(manifest_json, mtext),
       (asciiBytes "levels/0/level.json", lvltext),
       (checksums_path,
         (h lvltext ++ [32, 32] ++ asciiBytes "levels/0/level.json") ++ 10 :: (h mtext ++ [32, 32] ++ manifest_json))] manifest_json = mtext from rfl,
      if_neg (by simp)]
  have hstrip : strip ((h lvltext ++ [32, 32] ++ asciiBytes "levels/0/level.json") ++
      10 :: (h mtext ++ [32, 32] ++ manifest_json)) =
      (h lvltext ++ [32, 32] ++ asciiBytes "levels/0/level.json") ++ 10 :: (h mtext ++ [32, 32] ++ manifest_json) := by
    refine strip_eq_self _ ?_ ?_
    · intro a ha
      cases hlv : h lvltext with
      | nil => exact absurd hlv hne1
      | cons c t =>
        rw [hlv] at ha
        simp at ha
        rw [← ha]
        exact hcl1 c (by rw [hlv]; simp)
    · intro a ha
      have hC : (h lvltext ++ [32, 32] ++ asciiBytes "levels/0/level.json") ++ 10 :: (h mtext ++ [32, 32] ++ manifest_json) =
          ((h lvltext ++ [32, 32] ++ asciiBytes "levels/0/level.json") ++ (10 :: (h mtext ++ [32, 32]))) ++ manifest_json := by
        simp [List.append_assoc]
      rw [hC, List.reverse_append] at ha
      rw [show manifest_json.reverse =
        110 :: [111, 115, 106, 46, 116, 115, 101, 102, 105, 110, 97, 109]
        from by decide] at ha
      simp at ha
      rw [← ha]
      rfl
  have hno1 : ∀ x ∈ (h lvltext ++ [32, 32] ++ asciiBytes "levels/0/level.json"), ¬ x = 10 := by
    intro x hx
    simp only [List.mem_append] at hx
    rcases hx with (hx | hx) | hx
    · exact h10 (h lvltext) hcl1 x hx
    · intro hh
      rw [hh] at hx
      simp at hx
    · intro hh
      rw [hh] at hx
      revert hx
      decide
  have hno2 : ∀ x ∈ (h mtext ++ [32, 32] ++ manifest_json), ¬ x = 10 := by
    intro x hx
    simp only [List.mem_append] at hx
    rcases hx with (hx | hx) | hx
    · exact h10 (h mtext) hcl2 x hx
    · intro hh
      rw [hh] at hx
      simp at hx
    · intro hh
      rw [hh] at hx
      revert hx
      decide
  rw [verify_stella_checksums, if_neg (by simp)]
  rw [joinNl_pair (h lvltext ++ [32, 32] ++ asciiBytes "levels/0/level.json") (h mtext ++ [32, 32] ++ manifest_json)]
  rw [show dlookup [(manifest_json, mtext),
       (asciiBytes "levels/0/level.json", lvltext),
       (checksums_path,
         (h lvltext ++ [32, 32] ++ asciiBytes "levels/0/level.json") ++ 10 :: (h mtext ++ [32, 32] ++ manifest_json))] checksums_path =
      (h lvltext ++ [32, 32] ++ asciiBytes "levels/0/level.json") ++ 10 :: (h mtext ++ [32, 32] ++ manifest_json) from rfl]
  rw [hstrip, splitNl_append _ _ hno1, splitNl_no_nl _ hno2]
  simp only [verifyLoop, hl1, hl2]
  rfl

end Stella

namespace Stella

/-- **C7**: validation completeness for a missing triad.  Packing the
default single-level manifest (level id `"0"`, path
`levels/0/level.json`) with a payload map containing only
`levels/0/level.json`, then validating, yields `ok = false` with exactly
two errors: the missing `levels/0/render.glb` and the missing
`levels/0/collision.rlevox`.  `jdec` abstracts `json.loads`; the
hypothesis says it decodes the serialized manifest back to its dict, and
`h` produces non-empty whitespace-free digests (as hex digests are). -/
theorem C7_validate_missing_triad (h : Bytes → Bytes)
    (jdec : Bytes → Option (List (String × Json)))
    (mtext lvltext : Bytes) (created : String)
    (hclean : ∀ s, h s ≠ [] ∧ ∀ b ∈ h s, isWsB b = false)
    (hjdec : jdec mtext = some (makeManifestDict created)) :
    validate_stella h jdec
      (pack_stella h mtext [(asciiBytes "levels/0/level.json", lvltext)] true) =
      .ok (false,
        [.missingRequiredFile (asciiBytes "levels/0/render.glb"),
         .missingRequiredFile (asciiBytes "levels/0/collision.rlevox")]) := by
  have hver := verify_packed_triple h mtext lvltext hclean
  rw [show pack_stella h mtext [(asciiBytes "levels/0/level.json", lvltext)] true =
      [(manifest_json, mtext),
       (asciiBytes "levels/0/level.json", lvltext),
       (checksums_path,
         joinNl [h lvltext ++ [32, 32] ++ asciiBytes "levels/0/level.json",
                 h mtext ++ [32, 32] ++ manifest_json])] from rfl]
  simp only [validate_stella]
  rw [show dlookup [(manifest_json, mtext),
       (asciiBytes "levels/0/level.json", lvltext),
       (checksums_path,
         joinNl [h lvltext ++ [32, 32] ++ asciiBytes "levels/0/level.json",
                 h mtext ++ [32, 32] ++ manifest_json])] manifest_json = mtext from rfl]
  rw [hjdec]
  simp only [hver]
  rfl

/-- **C7 witness**: evaluated with a constant one-byte digest function
and a decoder defined only on the concrete manifest bytes. -/
theorem C7_validate_missing_triad_witness :
    validate_stella (fun _ => [97])
      (fun b => if b = [109] then some (makeManifestDict "c") else none)
      (pack_stella (fun _ => [97]) [109]
        [(asciiBytes "levels/0/level.json", [108])] true) =
      .ok (false,
        [.missingRequiredFile (asciiBytes "levels/0/render.glb"),
         .missingRequiredFile (asciiBytes "levels/0/collision.rlevox")]) :=
  C7_validate_missing_triad (fun _ => [97])
    (fun b => if b = [109] then some (makeManifestDict "c") else none)
    [109] [108] "c"
    (by
      intro s
      refine ⟨by simp, ?_⟩
      intro b hb
      simp at hb
      subst hb
      rfl)
    rfl

end Stella
